import Mathlib

/-!
# testaservice: a test-double HTTP service

A shallow embedding of `testservice.go`: the `TestService` state (last request, configured
response body and status code), the request handler installed by `NewTestService`, the two
setters and the ten assertions, followed by theorems about them. Testify's `JSONEq`, with the
parts of encoding/json and strconv it rests on, is modelled in the JSON section.

Conventions of the embedding:

* a Go `string` is a list of bytes (a Go string is a read-only byte sequence), and so is a
  `[]byte` of which the source only takes the length or the contents; where the source can tell
  the nil slice from an empty one, in the comparison of `AssertReceivedBody`, a `[]byte` is a
  `ByteSlice`;
* a Go `map[string][]string` (`http.Header`, `url.Values`) is an association list, and indexing
  an absent key gives the empty list, as indexing a Go map gives the nil slice;
* an `io.Reader` over a buffer is the list of bytes not read yet;
* an assertion returns an `Outcome` and the service state it leaves behind (reading the request
  body moves the reader of the stored request);
* the standard-library and testify functions the source calls are modelled next to their callers,
  each with the Go function it stands for named in its doc comment.
-/

namespace Testaservice

set_option maxRecDepth 100000

/-- One octet. -/
abbrev Byte := Fin 256

/-- A Go byte slice or string. -/
abbrev Bytes := List Byte

/-- An ASCII string literal of the Go source as bytes. -/
def ascii (s : String) : Bytes := s.toList.map (fun c => Fin.ofNat c.toNat)

/-- A Go `map[string][]string`. -/
abbrev Values := List (Bytes × List Bytes)

/-- Map indexing `m[key]`: the nil slice when the key is absent. -/
def Values.index (m : Values) (key : Bytes) : List Bytes := (m.lookup key).getD []

/-- Go `url.Values.Get`: the first value stored under the key, or the empty string. -/
def Values.Get (m : Values) (key : Bytes) : Bytes :=
  match m.index key with
  | [] => []
  | v :: _ => v

/-- Map assignment `m[key] = vs`. -/
def Values.assign (m : Values) (key : Bytes) (vs : List Bytes) : Values :=
  (key, vs) :: m.filter (fun kv => kv.1 ≠ key)

/-- Go `textproto.validHeaderFieldByte`: the token characters of RFC 7230. -/
def validHeaderFieldByte (c : Byte) : Bool :=
  (48 ≤ c.val ∧ c.val ≤ 57) || (65 ≤ c.val ∧ c.val ≤ 90) || (97 ≤ c.val ∧ c.val ≤ 122)
    || c ∈ ascii "!#$%&*+-.^_|~" || c.val = 39 || c.val = 96

/-- The casing loop of Go `textproto.canonicalMIMEHeaderKey`: upper case at the start and after a
hyphen, lower case elsewhere. -/
def canonicalCase : Bool → Bytes → Bytes
  | _, [] => []
  | upper, c :: cs =>
    let c' : Byte :=
      if upper ∧ 97 ≤ c.val ∧ c.val ≤ 122 then Fin.ofNat (c.val - 32)
      else if ¬ upper ∧ 65 ≤ c.val ∧ c.val ≤ 90 then Fin.ofNat (c.val + 32)
      else c
    c' :: canonicalCase (c' = 45) cs

/-- Go `textproto.CanonicalMIMEHeaderKey`: a key with a byte outside the token characters is
returned unchanged, any other is put in canonical case. -/
def CanonicalMIMEHeaderKey (s : Bytes) : Bytes :=
  if s.all validHeaderFieldByte then canonicalCase true s else s

/-- Go `http.Header.Get`: the first value under the canonical form of the key, or "". -/
def Header.Get (h : Values) (key : Bytes) : Bytes :=
  match h.index (CanonicalMIMEHeaderKey key) with
  | [] => []
  | v :: _ => v

/-- Go `http.Header.Set`: replaces the values under the canonical form of the key. -/
def Header.Set (h : Values) (key value : Bytes) : Values :=
  h.assign (CanonicalMIMEHeaderKey key) [value]

/-- A Go `[]byte` value: the nil slice, or a slice with its bytes, which may be none. -/
inductive ByteSlice where
  | nil
  | bytes (data : Bytes)
deriving DecidableEq, Repr

/-- The bytes of a slice: none for the nil slice. -/
def ByteSlice.data : ByteSlice → Bytes
  | ByteSlice.nil => []
  | ByteSlice.bytes data => data

/-- Go `ioutil.ReadAll` on a reader over a buffer: returns every unread byte, in a slice that
is never nil, and leaves the reader at its end. A reader over a byte slice never returns an
error. -/
def readAll (unread : Bytes) : ByteSlice × Bytes := (ByteSlice.bytes unread, [])

/-- Go `bytes.NewReader`: a reader over the bytes of the slice, none of them read yet. -/
def NewReader (b : ByteSlice) : Bytes := b.data

/-- The part of `url.URL` the service looks at: `Path`, and the values `Query()` parses out of
the raw query string. -/
structure URL where
  Path : Bytes
  Query : Values
deriving DecidableEq, Repr

/-- The part of `http.Request` the service looks at. `Body` is the body stream, held as the
bytes that have not been read from it yet. -/
structure Request where
  Method : Bytes
  URL : URL
  Header : Values
  Body : Bytes
deriving DecidableEq, Repr

/-- The fields of `TestService` that the handler, the setters and the assertions read or
write (the embedded server and the `testing.T` are left out). `request` is a pointer in the
source: `none` is the nil pointer. -/
structure TestService where
  request : Option Request
  responseBody : Bytes
  responseCode : Int
deriving DecidableEq, Repr

/-- The argument of `SetResponseBody`, an `interface{}` in the source, by the three cases the
setter distinguishes. A value of any other dynamic type is held as what `json.Marshal` returns
for it: the encoding, or `none` when it returns an error. -/
inductive Value where
  | bytes (b : Bytes)
  | string (s : Bytes)
  | other (marshalled : Option Bytes)
deriving DecidableEq, Repr

/-- Go `json.Marshal` on a value of another type: the encoding, and with an error the nil
slice. -/
def jsonMarshal (marshalled : Option Bytes) : Bytes × Bool :=
  match marshalled with
  | some b => (b, true)
  | none => ([], false)

/-- `SetResponseBody` of the source. -/
def SetResponseBody (s : TestService) (b : Value) : TestService :=
  match b with
  | .bytes body => { s with responseBody := body }
  | .string body => { s with responseBody := body }
  | .other m =>
    let (body, _) := jsonMarshal m
    { s with responseBody := body }

/-- `SetResponseCode` of the source. -/
def SetResponseCode (s : TestService) (code : Int) : TestService :=
  { s with responseCode := code }

/-! ## The response writer of net/http -/

/-- What the client gets back: the final status code and the body. -/
structure Response where
  status : Int
  body : Bytes
deriving DecidableEq, Repr

/-- The state of the `http.ResponseWriter` handed to the handler (`http.response` of net/http):
the method of the request being answered, whether the status line is decided, the status, and
the body bytes sent. -/
structure ResponseWriter where
  reqMethod : Bytes
  wroteHeader : Bool
  status : Int
  written : Bytes
deriving DecidableEq, Repr

/-- Go `(*response).WriteHeader`. It panics (`none`) on a code outside 100..999
(`checkWriteHeaderCode`); an informational code 1xx other than 101 is sent as an interim
response and leaves the final status open; any other code becomes the status. -/
def ResponseWriter.WriteHeader (w : ResponseWriter) (code : Int) : Option ResponseWriter :=
  if w.wroteHeader then some w
  else if code < 100 ∨ code > 999 then none
  else if 100 ≤ code ∧ code ≤ 199 ∧ code ≠ 101 then some w
  else some { w with wroteHeader := true, status := code }

/-- Go `http.bodyAllowedForStatus`: no body with 1xx, 204 and 304. -/
def bodyAllowedForStatus (status : Int) : Bool :=
  if 100 ≤ status ∧ status ≤ 199 then false
  else if status = 204 then false
  else if status = 304 then false
  else true

/-- Go `(*response).Write`: decides the status as 200 when it is still open, then sends the
bytes unless the status allows no body (`ErrBodyNotAllowed`) or the request method is HEAD. -/
def ResponseWriter.Write (w : ResponseWriter) (data : Bytes) : Option ResponseWriter :=
  match (if w.wroteHeader then some w else w.WriteHeader 200) with
  | none => none
  | some w =>
    if data.length = 0 then some w
    else if ¬ bodyAllowedForStatus w.status then some w
    else if w.reqMethod = ascii "HEAD" then some w
    else some { w with written := w.written ++ data }

/-- The end of a request in net/http (`finishRequest`): a handler that never decided the status
answers 200. -/
def ResponseWriter.finish (w : ResponseWriter) : Response :=
  if w.wroteHeader then ⟨w.status, w.written⟩ else ⟨200, w.written⟩

/-- `NewTestService` of the source: the state of a new service. -/
def NewTestService : TestService :=
  { request := none, responseBody := [], responseCode := 0 }

/-- The handler function `NewTestService` installs on the server. It returns the service state
and what the client receives: `none` when the handler panics, which makes net/http drop the
connection without a response. -/
def handler (s : TestService) (r : Request) : TestService × Option Response :=
  let (body, _) := readAll r.Body
  let r := { r with Body := NewReader body }
  let s := { s with request := some r }
  let w : ResponseWriter := { reqMethod := r.Method, wroteHeader := false, status := 0, written := [] }
  match (if s.responseCode ≠ 0 then w.WriteHeader s.responseCode else some w) with
  | none => (s, none)
  | some w =>
    match (if s.responseBody.length ≠ 0 then w.Write s.responseBody else some w) with
    | none => (s, none)
    | some w => (s, some w.finish)

/-! ## Assertions -/

/-- How a call of an assertion ends: it returns normally, it reports a test failure through
`require` (which ends the test with `t.FailNow`), or the process panics on a nil pointer. -/
inductive Outcome where
  | pass
  | fail
  | panic
deriving DecidableEq, Repr

/-- Go `strings.EqualFold` against an ASCII constant of the same length: equal up to the case
of ASCII letters. -/
def asciiLower (c : Byte) : Byte :=
  if 65 ≤ c.val ∧ c.val ≤ 90 then Fin.ofNat (c.val + 32) else c

/-- Go `strings.IndexByte` followed by the two slices around the index: the bytes before the
first occurrence of `sep` and the bytes after it, `none` when `sep` does not occur. -/
def cutByte (sep : Byte) : Bytes → Option (Bytes × Bytes)
  | [] => none
  | c :: cs =>
    if c = sep then some ([], cs)
    else match cutByte sep cs with
      | none => none
      | some (before, after) => some (c :: before, after)

/-- The alphabet of Go `base64.StdEncoding`. -/
def encodeStd : Bytes :=
  ascii "ABCDEFGHIJKLMNOPQRSTUVWXYZabcdefghijklmnopqrstuvwxyz0123456789+/"

/-- The padding character of `base64.StdEncoding`, `=`. -/
def stdPadding : Byte := 61

/-- The character that encodes a 6-bit value. -/
def encodeSextet (v : Nat) : Byte := encodeStd.getD v 0

/-- The 6-bit value a character encodes (the `decodeMap` of Go's encoding), `none` for a
character outside the alphabet. -/
def decodeSextet (c : Byte) : Option Nat :=
  let i := encodeStd.indexOf c
  if i < 64 then some i else none

/-- Go `base64.StdEncoding.EncodeToString`: three bytes give four characters, a remainder of
one or two bytes is padded with `=`. -/
def EncodeToString : Bytes → Bytes
  | a :: b :: c :: rest =>
    encodeSextet (a.val / 4) :: encodeSextet (a.val % 4 * 16 + b.val / 16)
      :: encodeSextet (b.val % 16 * 4 + c.val / 64) :: encodeSextet (c.val % 64)
      :: EncodeToString rest
  | [a, b] =>
    [encodeSextet (a.val / 4), encodeSextet (a.val % 4 * 16 + b.val / 16),
      encodeSextet (b.val % 16 * 4), stdPadding]
  | [a] => [encodeSextet (a.val / 4), encodeSextet (a.val % 4 * 16), stdPadding, stdPadding]
  | [] => []

/-- The quanta of Go `base64.StdEncoding.DecodeString` once line breaks are dropped: four
characters give three bytes; padding is accepted only in the last quantum, at its third and
fourth or at its fourth character, and trailing bits are not checked. -/
def decodeQuanta : Bytes → Option Bytes
  | [] => some []
  | c0 :: c1 :: c2 :: c3 :: rest =>
    match decodeSextet c0, decodeSextet c1 with
    | some v0, some v1 =>
      if c2 = stdPadding then
        if c3 = stdPadding ∧ rest = [] then some [Fin.ofNat (v0 * 4 + v1 / 16)] else none
      else
        match decodeSextet c2 with
        | none => none
        | some v2 =>
          if c3 = stdPadding then
            if rest = [] then
              some [Fin.ofNat (v0 * 4 + v1 / 16), Fin.ofNat (v1 % 16 * 16 + v2 / 4)]
            else none
          else
            match decodeSextet c3 with
            | none => none
            | some v3 =>
              match decodeQuanta rest with
              | none => none
              | some tail =>
                some (Fin.ofNat (v0 * 4 + v1 / 16) :: Fin.ofNat (v1 % 16 * 16 + v2 / 4)
                  :: Fin.ofNat (v2 % 4 * 64 + v3) :: tail)
    | _, _ => none
  | _ => none

/-- Go `base64.StdEncoding.DecodeString`: carriage returns and line feeds are skipped. -/
def DecodeString (s : Bytes) : Option Bytes :=
  decodeQuanta (s.filter (fun c => c ≠ 13 ∧ c ≠ 10))

/-- Go `http.parseBasicAuth`: the scheme `Basic ` in any case, then the base64 of
`username:password`, cut at the first colon. -/
def parseBasicAuth (auth : Bytes) : Bytes × Bytes × Bool :=
  if auth.length < 6 ∨ (auth.take 6).map asciiLower ≠ (ascii "Basic ").map asciiLower then
    ([], [], false)
  else
    match DecodeString (auth.drop 6) with
    | none => ([], [], false)
    | some cs =>
      match cutByte 58 cs with
      | none => ([], [], false)
      | some (username, password) => (username, password, true)

/-- Go `(*http.Request).BasicAuth`. -/
def Request.BasicAuth (r : Request) : Bytes × Bytes × Bool :=
  let auth := Header.Get r.Header (ascii "Authorization")
  if auth = [] then ([], [], false) else parseBasicAuth auth

/-- Go `(*http.Request).SetBasicAuth`, what a client calls to send Basic credentials. -/
def Request.SetBasicAuth (r : Request) (username password : Bytes) : Request :=
  let auth := ascii "Basic " ++ EncodeToString (username ++ 58 :: password)
  { r with Header := Header.Set r.Header (ascii "Authorization") auth }

/-- `AssertReceivedBasicAuth` of the source. There is no nil check: with no stored request
`s.request.BasicAuth()` dereferences the nil pointer. -/
def AssertReceivedBasicAuth (s : TestService) (user pass : Bytes) : Outcome × TestService :=
  match s.request with
  | none => (.panic, s)
  | some r =>
    match r.BasicAuth with
    | (requestUser, requestPass, valid) =>
      if ¬ valid then (.fail, s)
      else if user ≠ requestUser then (.fail, s)
      else if pass ≠ requestPass then (.fail, s)
      else (.pass, s)

/-- `AssertCalled` of the source. -/
def AssertCalled (s : TestService) : Outcome × TestService :=
  match s.request with
  | none => (.fail, s)
  | some _ => (.pass, s)

/-- `AssertNotCalled` of the source. -/
def AssertNotCalled (s : TestService) : Outcome × TestService :=
  match s.request with
  | none => (.pass, s)
  | some _ => (.fail, s)

/-- `AssertReceivedPath` of the source. There is no nil check: with no stored request
`s.request.URL` dereferences the nil pointer. -/
def AssertReceivedPath (s : TestService) (path : Bytes) : Outcome × TestService :=
  match s.request with
  | none => (.panic, s)
  | some r => if path = r.URL.Path then (.pass, s) else (.fail, s)

/-- `AssertReceivedHeader` of the source. -/
def AssertReceivedHeader (s : TestService) (name value : Bytes) : Outcome × TestService :=
  match s.request with
  | none => (.fail, s)
  | some r => if value = Header.Get r.Header name then (.pass, s) else (.fail, s)

/-- `AssertReceivedParam` of the source. -/
def AssertReceivedParam (s : TestService) (name value : Bytes) : Outcome × TestService :=
  match s.request with
  | none => (.fail, s)
  | some r => if value = r.URL.Query.Get name then (.pass, s) else (.fail, s)

/-- Testify `ObjectsAreEqual` on two `[]byte` values, which `require.Equal` calls: when one
of them is the nil slice they are equal only if both are, otherwise they are compared with
`bytes.Equal`. -/
def ObjectsAreEqual (expected actual : ByteSlice) : Bool :=
  match expected, actual with
  | ByteSlice.nil, ByteSlice.nil => true
  | ByteSlice.nil, ByteSlice.bytes _ => false
  | ByteSlice.bytes _, ByteSlice.nil => false
  | ByteSlice.bytes exp, ByteSlice.bytes act => exp = act

/-- `AssertReceivedBody` of the source. Reading the body moves the reader of the stored
request to its end. -/
def AssertReceivedBody (s : TestService) (body : ByteSlice) : Outcome × TestService :=
  match s.request with
  | none => (.fail, s)
  | some r =>
    let (requestBytes, rest) := readAll r.Body
    let s := { s with request := some { r with Body := rest } }
    if ObjectsAreEqual body requestBytes then (.pass, s) else (.fail, s)

/-- `AssertReceivedJSON` of the source. `jsonEq` stands for testify's `JSONEq`, which is not
part of the repository: whether both strings unmarshal and give equal values. `JSONEq` below
is the model of it. -/
def AssertReceivedJSON (jsonEq : Bytes → Bytes → Bool) (s : TestService) (expected : Bytes) :
    Outcome × TestService :=
  match s.request with
  | none => (.fail, s)
  | some r =>
    let (requestBytes, rest) := readAll r.Body
    let s := { s with request := some { r with Body := rest } }
    if jsonEq expected requestBytes.data then (.pass, s) else (.fail, s)

/-- `AssertReceivedMethod` of the source. -/
def AssertReceivedMethod (s : TestService) (method : Bytes) : Outcome × TestService :=
  match s.request with
  | none => (.fail, s)
  | some r => if method = r.Method then (.pass, s) else (.fail, s)

/-- `AssertReceivedAs` of the source. The target `v` is held as `unmarshal`: whether
`json.Unmarshal` of the given bytes into it returns no error. There is no nil check: with no
stored request `s.request.Body` dereferences the nil pointer. -/
def AssertReceivedAs (s : TestService) (unmarshal : Bytes → Bool) : Outcome × TestService :=
  match s.request with
  | none => (.panic, s)
  | some r =>
    let (requestBytes, rest) := readAll r.Body
    let s := { s with request := some { r with Body := rest } }
    if unmarshal requestBytes.data then (.pass, s) else (.fail, s)

/-! ## Sequences of operations -/

/-- One operation on a service: a setter, a request served by the handler, or an assertion. -/
inductive Op where
  | setResponseBody (b : Value)
  | setResponseCode (code : Int)
  | serve (r : Request)
  | assertReceivedBasicAuth (user pass : Bytes)
  | assertCalled
  | assertNotCalled
  | assertReceivedPath (path : Bytes)
  | assertReceivedHeader (name value : Bytes)
  | assertReceivedParam (name value : Bytes)
  | assertReceivedBody (body : ByteSlice)
  | assertReceivedJSON (expected : Bytes)
  | assertReceivedMethod (method : Bytes)
  | assertReceivedAs (unmarshal : Bytes → Bool)

/-- Whether the operation is a served request. -/
def Op.isServe : Op → Bool
  | .serve _ => true
  | _ => false

/-- Whether the operation is one of the two setters. -/
def Op.isSetter : Op → Bool
  | .setResponseBody _ => true
  | .setResponseCode _ => true
  | _ => false

/-- The service state after one operation. -/
def step (jsonEq : Bytes → Bytes → Bool) (s : TestService) : Op → TestService
  | .setResponseBody b => SetResponseBody s b
  | .setResponseCode code => SetResponseCode s code
  | .serve r => (handler s r).1
  | .assertReceivedBasicAuth user pass => (AssertReceivedBasicAuth s user pass).2
  | .assertCalled => (AssertCalled s).2
  | .assertNotCalled => (AssertNotCalled s).2
  | .assertReceivedPath path => (AssertReceivedPath s path).2
  | .assertReceivedHeader name value => (AssertReceivedHeader s name value).2
  | .assertReceivedParam name value => (AssertReceivedParam s name value).2
  | .assertReceivedBody body => (AssertReceivedBody s body).2
  | .assertReceivedJSON expected => (AssertReceivedJSON jsonEq s expected).2
  | .assertReceivedMethod method => (AssertReceivedMethod s method).2
  | .assertReceivedAs unmarshal => (AssertReceivedAs s unmarshal).2

/-- The service state after a sequence of operations, first to last. -/
def run (jsonEq : Bytes → Bytes → Bool) (s : TestService) (ops : List Op) : TestService :=
  ops.foldl (step jsonEq) s

/-- The stored request once its body reader has been read to the end. -/
def drained (s : TestService) (q : Request) : TestService :=
  { s with request := some { q with Body := [] } }

/-! ## JSON as encoding/json and testify read it -/

/-- The exact value of a JSON number, `mant * 10 ^ exp` with the sign `neg`, in lowest terms:
`mant` is not a multiple of ten, and zero is `⟨false, 0, 0⟩`. -/
structure Decimal where
  neg : Bool
  mant : Nat
  exp : Int
deriving DecidableEq, Repr

/-- A finite Go `float64`, by its value `mant * 2 ^ exp` with the sign `neg`, in lowest terms:
`mant` is odd, and zero is `⟨false, 0, 0⟩` (Go's `==` does not tell `-0` from `0`). -/
structure Float64 where
  neg : Bool
  mant : Nat
  exp : Int
deriving DecidableEq, Repr

/-- The loop of `bitLen`. -/
def bitLenAux : Nat → Nat → Nat
  | 0, _ => 0
  | fuel + 1, n => if n = 0 then 0 else bitLenAux fuel (n / 2) + 1

/-- The number of binary digits of `n` (Go `bits.Len`). -/
def bitLen (n : Nat) : Nat := bitLenAux n n

/-- Divides `m` by two as long as it is even, counting the divisions in `e`. -/
def stripTwos : Nat → Nat → Int → Nat × Int
  | 0, m, e => (m, e)
  | fuel + 1, m, e => if m % 2 = 0 then stripTwos fuel (m / 2) (e + 1) else (m, e)

/-- Divides `m` by ten as long as it is a multiple of ten, counting the divisions in `e`. -/
def stripTens : Nat → Nat → Int → Nat × Int
  | 0, m, e => (m, e)
  | fuel + 1, m, e => if m % 10 = 0 then stripTens fuel (m / 10) (e + 1) else (m, e)

/-- The decimal `m * 10 ^ e` in lowest terms. -/
def Decimal.canon (neg : Bool) (m : Nat) (e : Int) : Decimal :=
  if m = 0 then ⟨false, 0, 0⟩
  else
    match stripTens (bitLen m) m e with
    | (m', e') => ⟨neg, m', e'⟩

/-- The float `m * 2 ^ e` in lowest terms. -/
def Float64.canon (neg : Bool) (m : Nat) (e : Int) : Float64 :=
  if m = 0 then ⟨false, 0, 0⟩
  else
    match stripTwos (bitLen m) m e with
    | (m', e') => ⟨neg, m', e'⟩

/-- Go `strconv.ParseFloat(s, 64)` on a JSON number of value `d`: the nearest `float64`, ties to
the even mantissa, with 53 bits of mantissa and the exponent of the last bit not below -1074;
`none` is the range error for a value that rounds beyond the largest `float64`. A value too
small to round to a non-zero `float64` gives zero, without an error. -/
def ParseFloat (d : Decimal) : Option Float64 :=
  if d.mant = 0 then some ⟨false, 0, 0⟩
  else if 400 < d.exp then none
  else if (bitLen d.mant : Int) + d.exp < -400 then some ⟨false, 0, 0⟩
  else
    let n : Nat := if 0 ≤ d.exp then d.mant * 10 ^ d.exp.toNat else d.mant
    let dn : Nat := if 0 ≤ d.exp then 1 else 10 ^ (-d.exp).toNat
    let e0 : Int := (bitLen n : Int) - (bitLen dn : Int)
    let ge : Bool := if 0 ≤ e0 then dn * 2 ^ e0.toNat ≤ n else dn ≤ n * 2 ^ (-e0).toNat
    let e : Int := if ge then e0 else e0 - 1
    let p : Int := max (e - 52) (-1074)
    let N : Nat := if 0 ≤ p then n else n * 2 ^ (-p).toNat
    let D : Nat := if 0 ≤ p then dn * 2 ^ p.toNat else dn
    let m := N / D
    let r := N % D
    let m' := if D < 2 * r ∨ (2 * r = D ∧ m % 2 = 1) then m + 1 else m
    if 971 < p ∨ (p = 971 ∧ 2 ^ 53 ≤ m') then none
    else some (Float64.canon d.neg m' p)

/-- The exact decimal expansion of a float. -/
def Float64.toDecimal (f : Float64) : Decimal :=
  if 0 ≤ f.exp then Decimal.canon f.neg (f.mant * 2 ^ f.exp.toNat) 0
  else Decimal.canon f.neg (f.mant * 5 ^ (-f.exp).toNat) f.exp

/-- Whether the number is exactly representable as a `float64`: rounding it changes
nothing. -/
def float64Exact (d : Decimal) : Bool := (ParseFloat d).map Float64.toDecimal = some d

/-- The tokens of a JSON text. A string token holds the string as Go unquotes it, a number
token the exact value of the number. -/
inductive Token where
  | beginObject
  | endObject
  | beginArray
  | endArray
  | colon
  | comma
  | string (s : Bytes)
  | number (d : Decimal)
  | true
  | false
  | null
deriving DecidableEq, Repr

/-- Go `json.isSpace`. -/
def isSpace (c : Byte) : Bool := c = 32 ∨ c = 9 ∨ c = 13 ∨ c = 10

/-- The value of a hexadecimal digit. -/
def hexDigit (c : Byte) : Option Nat :=
  if 48 ≤ c.val ∧ c.val ≤ 57 then some (c.val - 48)
  else if 97 ≤ c.val ∧ c.val ≤ 102 then some (c.val - 87)
  else if 65 ≤ c.val ∧ c.val ≤ 70 then some (c.val - 55)
  else none

/-- Four hexadecimal digits at the head of the input, as a number, and the rest. -/
def hex4 (s : Bytes) : Option (Nat × Bytes) :=
  match s with
  | a :: b :: c :: d :: rest =>
    match hexDigit a, hexDigit b, hexDigit c, hexDigit d with
    | some x, some y, some z, some w => some (x * 4096 + y * 256 + z * 16 + w, rest)
    | _, _, _, _ => none
  | _ => none

/-- Go `json.getu4`: the number written by an escape `\uXXXX` at the head of the input. -/
def getu4 (s : Bytes) : Option (Nat × Bytes) :=
  match s with
  | a :: b :: rest => if a = 92 ∧ b = 117 then hex4 rest else none
  | _ => none

/-- Go `utf8.EncodeRune` on a code point that is no surrogate and at most U+10FFFF. -/
def EncodeRune (r : Nat) : Bytes :=
  if r < 128 then [Fin.ofNat r]
  else if r < 2048 then [Fin.ofNat (192 + r / 64), Fin.ofNat (128 + r % 64)]
  else if r < 65536 then
    [Fin.ofNat (224 + r / 4096), Fin.ofNat (128 + r / 64 % 64), Fin.ofNat (128 + r % 64)]
  else
    [Fin.ofNat (240 + r / 262144), Fin.ofNat (128 + r / 4096 % 64),
      Fin.ofNat (128 + r / 64 % 64), Fin.ofNat (128 + r % 64)]

/-- Whether the byte is a UTF-8 continuation byte in the range `lo..hi`. -/
def inRange (lo hi : Nat) (c : Byte) : Bool := lo ≤ c.val ∧ c.val ≤ hi

/-- Go `utf8.DecodeRune` on input that starts with a byte above 127: the length of the
well-formed UTF-8 sequence at the head of the input, 0 when there is none. -/
def runeLen (s : Bytes) : Nat :=
  match s with
  | b0 :: b1 :: rest =>
    if inRange 194 223 b0 then (if inRange 128 191 b1 then 2 else 0)
    else
      match rest with
      | b2 :: rest' =>
        let second : Bool :=
          if b0.val = 224 then inRange 160 191 b1
          else if b0.val = 237 then inRange 128 159 b1
          else if inRange 225 239 b0 then inRange 128 191 b1
          else false
        if second then (if inRange 128 191 b2 then 3 else 0)
        else
          match rest' with
          | b3 :: _ =>
            let second4 : Bool :=
              if b0.val = 240 then inRange 144 191 b1
              else if b0.val = 244 then inRange 128 143 b1
              else if inRange 241 243 b0 then inRange 128 191 b1
              else false
            if second4 ∧ inRange 128 191 b2 ∧ inRange 128 191 b3 then 4 else 0
          | [] => 0
      | [] => 0
  | _ => 0

/-- The byte an escape of one letter stands for. -/
def simpleEscape (c : Byte) : Option Byte :=
  if c = 34 then some 34
  else if c = 92 then some 92
  else if c = 47 then some 47
  else if c = 98 then some 8
  else if c = 102 then some 12
  else if c = 110 then some 10
  else if c = 114 then some 13
  else if c = 116 then some 9
  else none

/-- The replacement character U+FFFD in UTF-8. -/
def replacementChar : Bytes := [239, 191, 189]

/-- A string literal after its opening quote, as the scanner of encoding/json accepts it and
`unquote` decodes it: the decoded string and the input after the closing quote. A control
character or an unknown escape is an error; an escaped surrogate pair is one code point, a lone
surrogate and a byte that starts no well-formed UTF-8 sequence become U+FFFD. -/
def scanString : Nat → Bytes → Option (Bytes × Bytes)
  | 0, _ => none
  | fuel + 1, s =>
    match s with
    | [] => none
    | c :: rest =>
      if c = 34 then some ([], rest)
      else if c = 92 then
        match rest with
        | [] => none
        | e :: rest1 =>
          if e = 117 then
            match hex4 rest1 with
            | none => none
            | some (r, rest2) =>
              if 55296 ≤ r ∧ r < 57344 then
                match getu4 rest2 with
                | some (r1, rest3) =>
                  if r < 56320 ∧ 56320 ≤ r1 ∧ r1 < 57344 then
                    (scanString fuel rest3).map
                      (fun p => (EncodeRune ((r - 55296) * 1024 + (r1 - 56320) + 65536) ++ p.1, p.2))
                  else (scanString fuel rest2).map (fun p => (replacementChar ++ p.1, p.2))
                | none => (scanString fuel rest2).map (fun p => (replacementChar ++ p.1, p.2))
              else (scanString fuel rest2).map (fun p => (EncodeRune r ++ p.1, p.2))
          else
            match simpleEscape e with
            | none => none
            | some b => (scanString fuel rest1).map (fun p => (b :: p.1, p.2))
      else if c.val < 32 then none
      else if c.val < 128 then (scanString fuel rest).map (fun p => (c :: p.1, p.2))
      else
        let n := runeLen s
        if n = 0 then (scanString fuel rest).map (fun p => (replacementChar ++ p.1, p.2))
        else (scanString fuel (s.drop n)).map (fun p => (s.take n ++ p.1, p.2))

/-- The decimal digits at the head of the input, and the rest. -/
def scanDigits : Bytes → List Nat × Bytes
  | [] => ([], [])
  | c :: rest =>
    if 48 ≤ c.val ∧ c.val ≤ 57 then
      match scanDigits rest with
      | (ds, rest') => ((c.val - 48) :: ds, rest')
    else ([], c :: rest)

/-- The number written by a list of decimal digits. -/
def digitsValue (ds : List Nat) : Nat := ds.foldl (fun acc d => acc * 10 + d) 0

/-- The optional fraction of a number: a dot and at least one digit. -/
def scanFraction (s : Bytes) : Option (List Nat × Bytes) :=
  match s with
  | c :: rest =>
    if c = 46 then
      match scanDigits rest with
      | (ds, rest') => if ds = [] then none else some (ds, rest')
    else some ([], s)
  | [] => some ([], s)

/-- The optional exponent of a number: `e` or `E`, an optional sign and at least one digit. -/
def scanExponent (s : Bytes) : Option (Int × Bytes) :=
  match s with
  | c :: rest =>
    if c = 101 ∨ c = 69 then
      let signed : Bool × Bytes :=
        match rest with
        | sgn :: rest1 =>
          if sgn = 43 then (false, rest1) else if sgn = 45 then (true, rest1) else (false, rest)
        | [] => (false, rest)
      match scanDigits signed.2 with
      | (ds, rest') =>
        if ds = [] then none
        else some (if signed.1 then -(digitsValue ds : Int) else (digitsValue ds : Int), rest')
    else some (0, s)
  | [] => some (0, s)

/-- A number literal at the head of the input, by the grammar of encoding/json: an optional
minus, `0` or a digit from 1 to 9 followed by digits, an optional fraction, an optional
exponent. Returns its exact value and the rest of the input. -/
def scanNumber (s : Bytes) : Option (Decimal × Bytes) :=
  let signed : Bool × Bytes :=
    match s with
    | c :: rest => if c = 45 then (true, rest) else (false, s)
    | [] => (false, s)
  let int : Option (List Nat × Bytes) :=
    match signed.2 with
    | c :: rest =>
      if c = 48 then some ([0], rest)
      else if 49 ≤ c.val ∧ c.val ≤ 57 then some (scanDigits signed.2)
      else none
    | [] => none
  match int with
  | none => none
  | some (ints, rest1) =>
    match scanFraction rest1 with
    | none => none
    | some (fracs, rest2) =>
      match scanExponent rest2 with
      | none => none
      | some (e, rest3) =>
        some (Decimal.canon signed.1 (digitsValue (ints ++ fracs)) (e - fracs.length), rest3)

/-- The input without the given ASCII word at its head, `none` when it does not start with
the word. -/
def dropWord (w : Bytes) (s : Bytes) : Option Bytes :=
  if s.take w.length = w then some (s.drop w.length) else none

/-- The tokens of a JSON text; white space between tokens is skipped. `none` when the text
has a character that starts no token or a malformed string, number or literal. -/
def scanTokens : Nat → Bytes → Option (List Token)
  | 0, _ => none
  | fuel + 1, s =>
    match s with
    | [] => some []
    | c :: rest =>
      if isSpace c then scanTokens fuel rest
      else if c = 123 then (scanTokens fuel rest).map (Token.beginObject :: ·)
      else if c = 125 then (scanTokens fuel rest).map (Token.endObject :: ·)
      else if c = 91 then (scanTokens fuel rest).map (Token.beginArray :: ·)
      else if c = 93 then (scanTokens fuel rest).map (Token.endArray :: ·)
      else if c = 58 then (scanTokens fuel rest).map (Token.colon :: ·)
      else if c = 44 then (scanTokens fuel rest).map (Token.comma :: ·)
      else if c = 34 then
        match scanString (rest.length + 1) rest with
        | none => none
        | some (str, rest') => (scanTokens fuel rest').map (Token.string str :: ·)
      else if c = 45 ∨ (48 ≤ c.val ∧ c.val ≤ 57) then
        match scanNumber s with
        | none => none
        | some (d, rest') => (scanTokens fuel rest').map (Token.number d :: ·)
      else if c = 116 then
        match dropWord (ascii "true") s with
        | none => none
        | some rest' => (scanTokens fuel rest').map (Token.true :: ·)
      else if c = 102 then
        match dropWord (ascii "false") s with
        | none => none
        | some rest' => (scanTokens fuel rest').map (Token.false :: ·)
      else if c = 110 then
        match dropWord (ascii "null") s with
        | none => none
        | some rest' => (scanTokens fuel rest').map (Token.null :: ·)
      else none

/-- The tokens of a whole text. -/
def tokens (s : Bytes) : Option (List Token) := scanTokens (s.length + 1) s


mutual
/-- A JSON value over numbers of type `N`. With `N := Decimal` and the members of an object in
the order of the text it is the syntax tree of a JSON text; with the members of every object
sorted by key, one per key, it is the value the text stands for, and with `N := Float64` the Go
value `json.Unmarshal` stores in an `interface{}` (`nil`, `bool`, `float64`, `string`,
`[]interface{}`, `map[string]interface{}`). -/
inductive JValue (N : Type) where
  | null
  | bool (b : Bool)
  | number (n : N)
  | string (s : Bytes)
  | array (xs : JValues N)
  | object (m : JEntries N)
deriving DecidableEq, Repr
/-- The elements of an array. -/
inductive JValues (N : Type) where
  | nil
  | cons (x : JValue N) (xs : JValues N)
deriving DecidableEq, Repr
/-- The members of an object, or the entries of a map. -/
inductive JEntries (N : Type) where
  | nil
  | cons (k : Bytes) (v : JValue N) (m : JEntries N)
deriving DecidableEq, Repr
end

/-- The nesting depth beyond which encoding/json gives up (`maxNestingDepth`). -/
def maxNestingDepth : Nat := 10000

mutual
/-- One JSON value at the head of the tokens, `depth` containers deep, and the tokens after
it. -/
def parseValue : Nat → Nat → List Token → Option (JValue Decimal × List Token)
  | 0, _, _ => none
  | fuel + 1, depth, ts =>
    match ts with
    | [] => none
    | t :: rest =>
      match t with
      | Token.null => some (JValue.null, rest)
      | Token.true => some (JValue.bool true, rest)
      | Token.false => some (JValue.bool false, rest)
      | Token.number d => some (JValue.number d, rest)
      | Token.string s => some (JValue.string s, rest)
      | Token.beginArray =>
        if maxNestingDepth < depth + 1 then none
        else
          match rest with
          | Token.endArray :: rest' => some (JValue.array JValues.nil, rest')
          | _ =>
            match parseElements fuel (depth + 1) rest with
            | none => none
            | some (xs, rest') => some (JValue.array xs, rest')
      | Token.beginObject =>
        if maxNestingDepth < depth + 1 then none
        else
          match rest with
          | Token.endObject :: rest' => some (JValue.object JEntries.nil, rest')
          | _ =>
            match parseMembers fuel (depth + 1) rest with
            | none => none
            | some (m, rest') => some (JValue.object m, rest')
      | _ => none
/-- The elements of a non-empty array up to its closing bracket. -/
def parseElements : Nat → Nat → List Token → Option (JValues Decimal × List Token)
  | 0, _, _ => none
  | fuel + 1, depth, ts =>
    match parseValue fuel depth ts with
    | none => none
    | some (x, rest) =>
      match rest with
      | Token.endArray :: rest' => some (JValues.cons x JValues.nil, rest')
      | Token.comma :: rest' =>
        match parseElements fuel depth rest' with
        | none => none
        | some (xs, rest'') => some (JValues.cons x xs, rest'')
      | _ => none
/-- The members of a non-empty object up to its closing brace. -/
def parseMembers : Nat → Nat → List Token → Option (JEntries Decimal × List Token)
  | 0, _, _ => none
  | fuel + 1, depth, ts =>
    match ts with
    | Token.string k :: Token.colon :: rest =>
      match parseValue fuel depth rest with
      | none => none
      | some (v, rest1) =>
        match rest1 with
        | Token.endObject :: rest' => some (JEntries.cons k v JEntries.nil, rest')
        | Token.comma :: rest' =>
          match parseMembers fuel depth rest' with
          | none => none
          | some (m, rest'') => some (JEntries.cons k v m, rest'')
        | _ => none
    | _ => none
end

/-- The syntax tree of a JSON text: `none` when the text is not valid JSON for encoding/json
(`json.Valid`). The parser spends at most two steps of its fuel on a token, so the fuel does
not run out. -/
def parseJSON (s : Bytes) : Option (JValue Decimal) :=
  match tokens s with
  | none => none
  | some ts =>
    match parseValue (2 * ts.length + 2) 0 ts with
    | some (x, []) => some x
    | _ => none

/-- Map assignment `m[k] = v` on a Go map held as its entries sorted by key. -/
def JEntries.insert {N : Type} (k : Bytes) (v : JValue N) : JEntries N → JEntries N
  | JEntries.nil => JEntries.cons k v JEntries.nil
  | JEntries.cons k' v' m =>
    if k = k' then JEntries.cons k v m
    else if k < k' then JEntries.cons k v (JEntries.cons k' v' m)
    else JEntries.cons k' v' (JEntries.insert k v m)

mutual
/-- The value a syntax tree decodes to when numbers are converted with `conv`: arrays element
by element, objects by assigning their members to a map in the order of the text, so that the
last member with a key wins. `none` when a number does not convert. -/
def decodeValue {N : Type} (conv : Decimal → Option N) : JValue Decimal → Option (JValue N)
  | JValue.null => some JValue.null
  | JValue.bool b => some (JValue.bool b)
  | JValue.number d =>
    match conv d with
    | none => none
    | some n => some (JValue.number n)
  | JValue.string s => some (JValue.string s)
  | JValue.array xs =>
    match decodeElements conv xs with
    | none => none
    | some ys => some (JValue.array ys)
  | JValue.object m =>
    match decodeMembers conv m JEntries.nil with
    | none => none
    | some entries => some (JValue.object entries)
/-- The elements of an array, decoded. -/
def decodeElements {N : Type} (conv : Decimal → Option N) : JValues Decimal → Option (JValues N)
  | JValues.nil => some JValues.nil
  | JValues.cons x xs =>
    match decodeValue conv x with
    | none => none
    | some y =>
      match decodeElements conv xs with
      | none => none
      | some ys => some (JValues.cons y ys)
/-- The members of an object, decoded and assigned to the map `acc` one after the other. -/
def decodeMembers {N : Type} (conv : Decimal → Option N) :
    JEntries Decimal → JEntries N → Option (JEntries N)
  | JEntries.nil, acc => some acc
  | JEntries.cons k v m, acc =>
    match decodeValue conv v with
    | none => none
    | some y => decodeMembers conv m (JEntries.insert k y acc)
end

/-- Go `json.Unmarshal` of a text into an `interface{}`: the Go value, with every number
parsed as a `float64`; `none` when it returns an error (invalid JSON, or a number out of the
range of `float64`). -/
def Unmarshal (data : Bytes) : Option (JValue Float64) :=
  match parseJSON data with
  | none => none
  | some x => decodeValue ParseFloat x

/-- Testify `ObjectsAreEqual` on two values unmarshalled into `interface{}`, which is
`reflect.DeepEqual`: equal kinds and equal contents, maps compared key by key. -/
def DeepEqual (a b : JValue Float64) : Bool := a = b

/-- Testify `JSONEq`: both strings unmarshal, and the two values are equal. -/
def JSONEq (expected actual : Bytes) : Bool :=
  match Unmarshal expected with
  | none => false
  | some e =>
    match Unmarshal actual with
    | none => false
    | some a => DeepEqual e a

/-- The JSON value a syntax tree stands for: its numbers exact, its objects maps from key to
value. -/
def denote (x : JValue Decimal) : Option (JValue Decimal) := decodeValue (fun d => some d) x


mutual
/-- Whether every number of the value satisfies `p`. -/
def JValue.allNumbers {N : Type} (p : N → Bool) : JValue N → Bool
  | JValue.null => true
  | JValue.bool _ => true
  | JValue.number n => p n
  | JValue.string _ => true
  | JValue.array xs => JValues.allNumbers p xs
  | JValue.object m => JEntries.allNumbers p m
/-- Whether every number of the elements satisfies `p`. -/
def JValues.allNumbers {N : Type} (p : N → Bool) : JValues N → Bool
  | JValues.nil => true
  | JValues.cons x xs => JValue.allNumbers p x && JValues.allNumbers p xs
/-- Whether every number of the members satisfies `p`. -/
def JEntries.allNumbers {N : Type} (p : N → Bool) : JEntries N → Bool
  | JEntries.nil => true
  | JEntries.cons _ v m => JValue.allNumbers p v && JEntries.allNumbers p m
end

mutual
/-- The value with `h` applied to every number. -/
def JValue.map {N M : Type} (h : N → M) : JValue N → JValue M
  | JValue.null => JValue.null
  | JValue.bool b => JValue.bool b
  | JValue.number n => JValue.number (h n)
  | JValue.string s => JValue.string s
  | JValue.array xs => JValue.array (JValues.map h xs)
  | JValue.object m => JValue.object (JEntries.map h m)
/-- The elements with `h` applied to every number. -/
def JValues.map {N M : Type} (h : N → M) : JValues N → JValues M
  | JValues.nil => JValues.nil
  | JValues.cons x xs => JValues.cons (JValue.map h x) (JValues.map h xs)
/-- The entries with `h` applied to every number. -/
def JEntries.map {N M : Type} (h : N → M) : JEntries N → JEntries M
  | JEntries.nil => JEntries.nil
  | JEntries.cons k v m => JEntries.cons k (JValue.map h v) (JEntries.map h m)
end

/-- Whether the text is valid JSON. -/
def validJSON (s : Bytes) : Bool := (parseJSON s).isSome

/-- Whether every number in the JSON text is exactly representable as a `float64` (a text
that is not valid JSON has no numbers). -/
def numbersExact (s : Bytes) : Bool :=
  match parseJSON s with
  | none => true
  | some x => x.allNumbers float64Exact

/-- Whether two JSON texts stand for the same JSON value. -/
def sameJSONValue (s t : Bytes) : Bool :=
  match parseJSON s, parseJSON t with
  | some x, some y => denote x = denote y
  | _, _ => false

/-- The float a decimal rounds to, zero when it is out of range. -/
def nearestFloat64 (d : Decimal) : Float64 := (ParseFloat d).getD ⟨false, 0, 0⟩

mutual
/-- Two syntax trees that differ only in the order of the members of their objects: the
relation generated by exchanging two neighbouring members with different keys. -/
inductive JValue.Reordered : JValue Decimal → JValue Decimal → Prop where
  | refl (x : JValue Decimal) : JValue.Reordered x x
  | array {xs ys : JValues Decimal} :
      JValues.Reordered xs ys → JValue.Reordered (JValue.array xs) (JValue.array ys)
  | object {m m' : JEntries Decimal} :
      JEntries.Reordered m m' → JValue.Reordered (JValue.object m) (JValue.object m')
/-- Arrays whose elements differ only in the order of object members. -/
inductive JValues.Reordered : JValues Decimal → JValues Decimal → Prop where
  | nil : JValues.Reordered JValues.nil JValues.nil
  | cons {x y : JValue Decimal} {xs ys : JValues Decimal} :
      JValue.Reordered x y → JValues.Reordered xs ys
        → JValues.Reordered (JValues.cons x xs) (JValues.cons y ys)
/-- Member lists that differ only in order. -/
inductive JEntries.Reordered : JEntries Decimal → JEntries Decimal → Prop where
  | nil : JEntries.Reordered JEntries.nil JEntries.nil
  | cons (k : Bytes) {v v' : JValue Decimal} {m m' : JEntries Decimal} :
      JValue.Reordered v v' → JEntries.Reordered m m'
        → JEntries.Reordered (JEntries.cons k v m) (JEntries.cons k v' m')
  | swap {k1 k2 : Bytes} (v1 v2 : JValue Decimal) (m : JEntries Decimal) :
      k1 ≠ k2 → JEntries.Reordered (JEntries.cons k1 v1 (JEntries.cons k2 v2 m))
        (JEntries.cons k2 v2 (JEntries.cons k1 v1 m))
  | trans {a b c : JEntries Decimal} :
      JEntries.Reordered a b → JEntries.Reordered b c → JEntries.Reordered a c
end

/-- Whether two JSON texts differ only in the order of the members of their objects. -/
def keyReordered (s t : Bytes) : Prop :=
  ∃ x y, parseJSON s = some x ∧ parseJSON t = some y ∧ JValue.Reordered x y

/-! ## Sample inputs -/

/-- A GET request for `/ping` with one query parameter and one header, and no body. -/
def pingRequest : Request :=
  ⟨ascii "GET", ⟨ascii "/ping", [(ascii "a", [ascii "1"])]⟩,
    [(ascii "Accept", [ascii "text/plain"])], []⟩

/-- A HEAD request for `/ping`. -/
def headRequest : Request :=
  ⟨ascii "HEAD", ⟨ascii "/ping", []⟩, [], []⟩

/-- A POST request for `/items` with a three-byte body. -/
def postRequest : Request :=
  ⟨ascii "POST", ⟨ascii "/items", []⟩, [], ascii "abc"⟩

/-- The JSON text `{"a":1,"b":[2.5,true]}`. -/
def jsonBody : Bytes := ascii "\x7b\"a\":1,\"b\":[2.5,true]\x7d"

/-- The JSON text `{ "b" : [25e-1, true], "a" : 1.0 }`: `jsonBody` with other white space,
the members in the other order and the numbers written differently. -/
def jsonExpected : Bytes := ascii "\x7b \"b\" : [25e-1, true], \"a\" : 1.0 \x7d"

/-- A POST request for `/items` whose body is `jsonBody`. -/
def jsonRequest : Request :=
  ⟨ascii "POST", ⟨ascii "/items", []⟩, [], jsonBody⟩

/-- A POST request for `/items` whose body is the JSON number 9007199254740993, which is
2^53 + 1. -/
def bigNumberRequest : Request :=
  ⟨ascii "POST", ⟨ascii "/items", []⟩, [], ascii "9007199254740993"⟩

/-! ## Helper lemmas -/

theorem handler_request (s : TestService) (q : Request) : (handler s q).1.request = some q := by
  unfold handler
  simp only [readAll, NewReader, ByteSlice.data]
  split
  · rfl
  · split <;> rfl

theorem handler_responseBody (s : TestService) (q : Request) :
    (handler s q).1.responseBody = s.responseBody := by
  unfold handler
  simp only [readAll, NewReader, ByteSlice.data]
  split
  · rfl
  · split <;> rfl

theorem handler_responseCode (s : TestService) (q : Request) :
    (handler s q).1.responseCode = s.responseCode := by
  unfold handler
  simp only [readAll, NewReader, ByteSlice.data]
  split
  · rfl
  · split <;> rfl

/-! ## Theorems -/

theorem assertReceivedBody_of_request (s : TestService) (q : Request) (b : ByteSlice)
    (h : s.request = some q) :
    AssertReceivedBody s b
      = (if ObjectsAreEqual b (ByteSlice.bytes q.Body) then Outcome.pass else Outcome.fail,
          drained s q) := by
  unfold AssertReceivedBody drained
  rw [h]
  simp only [readAll]
  split <;> rfl

theorem assertReceivedJSON_of_request (jsonEq : Bytes → Bytes → Bool) (s : TestService)
    (q : Request) (e : Bytes) (h : s.request = some q) :
    AssertReceivedJSON jsonEq s e
      = (if jsonEq e q.Body then Outcome.pass else Outcome.fail, drained s q) := by
  unfold AssertReceivedJSON drained
  rw [h]
  simp only [readAll, ByteSlice.data]
  split <;> rfl

theorem assertReceivedAs_of_request (s : TestService) (q : Request) (unmarshal : Bytes → Bool)
    (h : s.request = some q) :
    AssertReceivedAs s unmarshal
      = (if unmarshal q.Body then Outcome.pass else Outcome.fail, drained s q) := by
  unfold AssertReceivedAs drained
  rw [h]
  simp only [readAll, ByteSlice.data]
  split <;> rfl

theorem objectsAreEqual_bytes_iff (b : ByteSlice) (data : Bytes) :
    ObjectsAreEqual b (ByteSlice.bytes data) = true ↔ b = ByteSlice.bytes data := by
  cases b with
  | nil => simp [ObjectsAreEqual]
  | bytes d => simp [ObjectsAreEqual]

/-- C2, the code at the failing input: after the handler captures a request with body `b`,
`AssertReceivedBody b'` called as the first assertion passes if and only if `b'` is a slice
that is not nil and holds exactly the bytes of `b`. With the nil slice it fails on every
request, also on a request without a body, such as `pingRequest`, where the expected and the
received byte sequence are both empty. -/
theorem assertReceivedBody_first_iff (s : TestService) (q : Request) (b' : ByteSlice) :
    ((AssertReceivedBody (handler s q).1 b').1 = Outcome.pass ↔ b' = ByteSlice.bytes q.Body)
      ∧ (AssertReceivedBody (handler s q).1 ByteSlice.nil).1 = Outcome.fail
      ∧ pingRequest.Body = []
      ∧ (AssertReceivedBody (handler NewTestService pingRequest).1 ByteSlice.nil).1
          = Outcome.fail
      ∧ (AssertReceivedBody (handler NewTestService pingRequest).1 (ByteSlice.bytes [])).1
          = Outcome.pass := by
  have h := handler_request s q
  refine ⟨?_, ?_, rfl, by decide, by decide⟩
  · rw [assertReceivedBody_of_request _ q b' h, ← objectsAreEqual_bytes_iff]
    split <;> simp_all
  · rw [assertReceivedBody_of_request _ q _ h]
    rfl

/-- C3, the code at the failing input: on a captured request with the one-byte body `[1]`,
the first `AssertReceivedBody [1]` passes and the second one, called right after it, fails.
In general the first body-reading assertion (`AssertReceivedBody`, `AssertReceivedJSON`,
`AssertReceivedAs`) on a captured request with body `b` sees the complete bytes `b` and leaves
the body reader of the stored request at its end; every body-reading assertion made on a
request whose reader is at its end sees no bytes and leaves it there. So `AssertReceivedBody b`
called twice in a row passes the first time, and the second time only when `b` is empty. -/
theorem body_read_only_once (jsonEq : Bytes → Bytes → Bool) (s : TestService) (q : Request)
    (b : ByteSlice) (e : Bytes) (unmarshal : Bytes → Bool) :
    (AssertReceivedBody (handler NewTestService ⟨ascii "POST", ⟨ascii "/", []⟩, [], [1]⟩).1
        (ByteSlice.bytes [1])).1 = Outcome.pass
      ∧ (AssertReceivedBody (AssertReceivedBody
          (handler NewTestService ⟨ascii "POST", ⟨ascii "/", []⟩, [], [1]⟩).1
          (ByteSlice.bytes [1])).2 (ByteSlice.bytes [1])).1 = Outcome.fail
      ∧ (AssertReceivedBody (handler s q).1 b
        = (if ObjectsAreEqual b (ByteSlice.bytes q.Body) then Outcome.pass else Outcome.fail,
            drained (handler s q).1 q))
      ∧ (AssertReceivedJSON jsonEq (handler s q).1 e
        = (if jsonEq e q.Body then Outcome.pass else Outcome.fail, drained (handler s q).1 q))
      ∧ (AssertReceivedAs (handler s q).1 unmarshal
        = (if unmarshal q.Body then Outcome.pass else Outcome.fail, drained (handler s q).1 q))
      ∧ (AssertReceivedBody (drained (handler s q).1 q) b
        = (if ObjectsAreEqual b (ByteSlice.bytes []) then Outcome.pass else Outcome.fail,
            drained (handler s q).1 q))
      ∧ (AssertReceivedJSON jsonEq (drained (handler s q).1 q) e
        = (if jsonEq e [] then Outcome.pass else Outcome.fail, drained (handler s q).1 q))
      ∧ (AssertReceivedAs (drained (handler s q).1 q) unmarshal
        = (if unmarshal [] then Outcome.pass else Outcome.fail, drained (handler s q).1 q))
      ∧ (AssertReceivedBody (handler s q).1 (ByteSlice.bytes q.Body)).1 = Outcome.pass
      ∧ ((AssertReceivedBody (AssertReceivedBody (handler s q).1 (ByteSlice.bytes q.Body)).2
            (ByteSlice.bytes q.Body)).1 = Outcome.pass ↔ q.Body = []) := by
  have h := handler_request s q
  have hd : (drained (handler s q).1 q).request = some { q with Body := [] } := rfl
  have hdd : drained (drained (handler s q).1 q) { q with Body := [] }
      = drained (handler s q).1 q := rfl
  refine ⟨by decide, by decide, assertReceivedBody_of_request _ q b h,
    assertReceivedJSON_of_request jsonEq _ q e h,
    assertReceivedAs_of_request _ q unmarshal h, ?_, ?_, ?_, ?_, ?_⟩
  · rw [assertReceivedBody_of_request _ _ b hd, hdd]
  · rw [assertReceivedJSON_of_request jsonEq _ _ e hd, hdd]
  · rw [assertReceivedAs_of_request _ _ unmarshal hd, hdd]
  · rw [assertReceivedBody_of_request _ q _ h]
    simp [ObjectsAreEqual]
  · rw [assertReceivedBody_of_request _ q _ h]
    have h1 : ObjectsAreEqual (ByteSlice.bytes q.Body) (ByteSlice.bytes q.Body) = true := by
      simp [ObjectsAreEqual]
    simp only [h1, if_true]
    rw [assertReceivedBody_of_request _ _ _ hd]
    by_cases hb : q.Body = [] <;> simp [hb, ObjectsAreEqual]

theorem step_request_isSome (jsonEq : Bytes → Bytes → Bool) (s : TestService) (op : Op) :
    (step jsonEq s op).request.isSome = (s.request.isSome || op.isServe) := by
  obtain ⟨req, rb, rc⟩ := s
  cases op with
  | setResponseBody b => cases b <;> simp [step, SetResponseBody, Op.isServe]
  | setResponseCode code => simp [step, SetResponseCode, Op.isServe]
  | serve r => simp [step, handler_request, Op.isServe]
  | assertReceivedBasicAuth user pass =>
    cases req with
    | none => rfl
    | some r =>
      simp only [step, AssertReceivedBasicAuth, Op.isServe, Bool.or_false]
      repeat (first | rfl | split)
  | assertCalled => cases req <;> rfl
  | assertNotCalled => cases req <;> rfl
  | assertReceivedPath path =>
    cases req with
    | none => rfl
    | some r =>
      simp only [step, AssertReceivedPath, Op.isServe, Bool.or_false]
      split <;> rfl
  | assertReceivedHeader name value =>
    cases req with
    | none => rfl
    | some r =>
      simp only [step, AssertReceivedHeader, Op.isServe, Bool.or_false]
      split <;> rfl
  | assertReceivedParam name value =>
    cases req with
    | none => rfl
    | some r =>
      simp only [step, AssertReceivedParam, Op.isServe, Bool.or_false]
      split <;> rfl
  | assertReceivedBody body =>
    cases req with
    | none => rfl
    | some r =>
      simp only [step, AssertReceivedBody, readAll, Op.isServe, Bool.or_false]
      split <;> rfl
  | assertReceivedJSON expected =>
    cases req with
    | none => rfl
    | some r =>
      simp only [step, AssertReceivedJSON, readAll, ByteSlice.data, Op.isServe, Bool.or_false]
      split <;> rfl
  | assertReceivedMethod method =>
    cases req with
    | none => rfl
    | some r =>
      simp only [step, AssertReceivedMethod, Op.isServe, Bool.or_false]
      split <;> rfl
  | assertReceivedAs unmarshal =>
    cases req with
    | none => rfl
    | some r =>
      simp only [step, AssertReceivedAs, readAll, ByteSlice.data, Op.isServe, Bool.or_false]
      split <;> rfl

theorem run_request_isSome (jsonEq : Bytes → Bytes → Bool) (ops : List Op) (s : TestService) :
    (run jsonEq s ops).request.isSome = (s.request.isSome || ops.any Op.isServe) := by
  induction ops generalizing s with
  | nil => simp [run]
  | cons op ops ih =>
    have h := ih (step jsonEq s op)
    simp only [run, List.foldl_cons, List.any_cons] at h ⊢
    rw [h, step_request_isSome, Bool.or_assoc]

/-- C4: for every sequence of operations on a newly created service, `AssertNotCalled` passes
if and only if the sequence contains no served request; the stored last request is empty at
creation, and after the sequence it is empty if and only if no request was served. -/
theorem assertNotCalled_iff_no_request (jsonEq : Bytes → Bytes → Bool) (ops : List Op) :
    NewTestService.request = none
      ∧ ((run jsonEq NewTestService ops).request = none ↔ ∀ op ∈ ops, op.isServe = false)
      ∧ ((AssertNotCalled (run jsonEq NewTestService ops)).1 = Outcome.pass
          ↔ ∀ op ∈ ops, op.isServe = false) := by
  have h := run_request_isSome jsonEq ops NewTestService
  have h0 : NewTestService.request.isSome = false := rfl
  rw [h0, Bool.false_or] at h
  have key : (run jsonEq NewTestService ops).request = none ↔ ∀ op ∈ ops, op.isServe = false := by
    rw [← Option.not_isSome_iff_eq_none, h]
    simp
  refine ⟨rfl, key, ?_⟩
  rw [← key]
  unfold AssertNotCalled
  cases (run jsonEq NewTestService ops).request <;> simp

/-- C5: only the most recent request is checkable. For every two requests `q1` and `q2` served
in that order, with any operations between them, the stored last request is `q2`;
`AssertReceivedPath p` passes if and only if `p` is the path of `q2`, and asserting the path of
`q1` fails exactly when the two paths differ. -/
theorem last_request_only (jsonEq : Bytes → Bytes → Bool) (s : TestService) (q1 q2 : Request)
    (between : List Op) (p : Bytes) :
    (handler (run jsonEq (handler s q1).1 between) q2).1.request = some q2
      ∧ ((AssertReceivedPath (handler (run jsonEq (handler s q1).1 between) q2).1 p).1
            = Outcome.pass ↔ p = q2.URL.Path)
      ∧ ((AssertReceivedPath (handler (run jsonEq (handler s q1).1 between) q2).1 q1.URL.Path).1
            = Outcome.fail ↔ q1.URL.Path ≠ q2.URL.Path) := by
  have h := handler_request (run jsonEq (handler s q1).1 between) q2
  refine ⟨h, ?_, ?_⟩
  · unfold AssertReceivedPath
    rw [h]
    dsimp only
    split <;> simp_all
  · unfold AssertReceivedPath
    rw [h]
    dsimp only
    split <;> simp_all

/-- C6, the code at the failing input: on a service that has served no request,
`AssertReceivedBasicAuth`, `AssertReceivedPath` and `AssertReceivedAs` end in a nil-pointer
panic for every argument, while the six assertions that check the stored request with
`require.NotNil` first end in a reported failure. -/
theorem assertions_without_request (jsonEq : Bytes → Bytes → Bool) (a b : Bytes)
    (body : ByteSlice) (unmarshal : Bytes → Bool) :
    (AssertReceivedBasicAuth NewTestService a b).1 = Outcome.panic
      ∧ (AssertReceivedPath NewTestService a).1 = Outcome.panic
      ∧ (AssertReceivedAs NewTestService unmarshal).1 = Outcome.panic
      ∧ (AssertCalled NewTestService).1 = Outcome.fail
      ∧ (AssertReceivedHeader NewTestService a b).1 = Outcome.fail
      ∧ (AssertReceivedParam NewTestService a b).1 = Outcome.fail
      ∧ (AssertReceivedBody NewTestService body).1 = Outcome.fail
      ∧ (AssertReceivedJSON jsonEq NewTestService a).1 = Outcome.fail
      ∧ (AssertReceivedMethod NewTestService a).1 = Outcome.fail :=
  ⟨rfl, rfl, rfl, rfl, rfl, rfl, rfl, rfl, rfl⟩

/-- C7: for every value `v`, `SetResponseBody v` replaces the configured body, whatever it was,
with `v` itself when `v` is a byte sequence, with the bytes of `v` when `v` is a string, and
otherwise with the JSON encoding of `v`, or with the empty byte sequence when the encoding
fails; the configured status code and the stored last request are unchanged. -/
theorem setResponseBody_spec (s : TestService) (v : Value) :
    (SetResponseBody s v).responseBody
        = (match v with
          | Value.bytes b => b
          | Value.string str => str
          | Value.other (some encoding) => encoding
          | Value.other none => [])
      ∧ (SetResponseBody s v).responseCode = s.responseCode
      ∧ (SetResponseBody s v).request = s.request := by
  cases v with
  | bytes b => exact ⟨rfl, rfl, rfl⟩
  | string str => exact ⟨rfl, rfl, rfl⟩
  | other m => cases m <;> exact ⟨rfl, rfl, rfl⟩

/-- C10: an absent header or query parameter is indistinguishable from an empty one. On a
captured request with no header under the canonical form of the name `n`,
`AssertReceivedHeader n ""` passes and `AssertReceivedHeader n v` fails for every non-empty
`v`; on a captured request whose query has no parameter `m`, `AssertReceivedParam m ""` passes
and `AssertReceivedParam m v` fails for every non-empty `v`. -/
theorem absent_is_empty (s : TestService) (q : Request) (n m v : Bytes)
    (hn : q.Header.lookup (CanonicalMIMEHeaderKey n) = none)
    (hm : q.URL.Query.lookup m = none) (hv : v ≠ []) :
    (AssertReceivedHeader (handler s q).1 n []).1 = Outcome.pass
      ∧ (AssertReceivedHeader (handler s q).1 n v).1 = Outcome.fail
      ∧ (AssertReceivedParam (handler s q).1 m []).1 = Outcome.pass
      ∧ (AssertReceivedParam (handler s q).1 m v).1 = Outcome.fail := by
  have h := handler_request s q
  have hh : Header.Get q.Header n = [] := by
    simp [Header.Get, Values.index, hn]
  have hq : q.URL.Query.Get m = [] := by
    simp [Values.Get, Values.index, hm]
  unfold AssertReceivedHeader AssertReceivedParam
  rw [h]
  simp [hh, hq, hv]

/-- Witness for C10: `pingRequest` has the header `Accept` and the parameter `a`; it is asked
for the header `x-token` and the parameter `b`. -/
theorem absent_is_empty_witness :
    pingRequest.Header.lookup (CanonicalMIMEHeaderKey (ascii "x-token")) = none
      ∧ pingRequest.URL.Query.lookup (ascii "b") = none
      ∧ ascii "v" ≠ []
      ∧ (AssertReceivedHeader (handler NewTestService pingRequest).1 (ascii "x-token") []).1
          = Outcome.pass
      ∧ (AssertReceivedHeader (handler NewTestService pingRequest).1 (ascii "x-token")
          (ascii "v")).1 = Outcome.fail
      ∧ (AssertReceivedParam (handler NewTestService pingRequest).1 (ascii "b") []).1
          = Outcome.pass
      ∧ (AssertReceivedParam (handler NewTestService pingRequest).1 (ascii "b") (ascii "v")).1
          = Outcome.fail :=
  ⟨by decide, by decide, by decide,
    absent_is_empty NewTestService pingRequest (ascii "x-token") (ascii "b") (ascii "v")
      (by decide) (by decide) (by decide)⟩

theorem step_config (jsonEq : Bytes → Bytes → Bool) (s : TestService) (op : Op)
    (hop : op.isSetter = false) :
    (step jsonEq s op).responseBody = s.responseBody
      ∧ (step jsonEq s op).responseCode = s.responseCode := by
  obtain ⟨req, rb, rc⟩ := s
  cases op with
  | setResponseBody b => simp [Op.isSetter] at hop
  | setResponseCode code => simp [Op.isSetter] at hop
  | serve r => exact ⟨handler_responseBody _ r, handler_responseCode _ r⟩
  | assertReceivedBasicAuth user pass =>
    cases req with
    | none => exact ⟨rfl, rfl⟩
    | some r =>
      simp only [step, AssertReceivedBasicAuth]
      repeat (first | exact ⟨rfl, rfl⟩ | split)
  | assertCalled => cases req <;> exact ⟨rfl, rfl⟩
  | assertNotCalled => cases req <;> exact ⟨rfl, rfl⟩
  | assertReceivedPath path =>
    cases req with
    | none => exact ⟨rfl, rfl⟩
    | some r =>
      simp only [step, AssertReceivedPath]
      split <;> exact ⟨rfl, rfl⟩
  | assertReceivedHeader name value =>
    cases req with
    | none => exact ⟨rfl, rfl⟩
    | some r =>
      simp only [step, AssertReceivedHeader]
      split <;> exact ⟨rfl, rfl⟩
  | assertReceivedParam name value =>
    cases req with
    | none => exact ⟨rfl, rfl⟩
    | some r =>
      simp only [step, AssertReceivedParam]
      split <;> exact ⟨rfl, rfl⟩
  | assertReceivedBody body =>
    cases req with
    | none => exact ⟨rfl, rfl⟩
    | some r =>
      simp only [step, AssertReceivedBody, readAll]
      split <;> exact ⟨rfl, rfl⟩
  | assertReceivedJSON expected =>
    cases req with
    | none => exact ⟨rfl, rfl⟩
    | some r =>
      simp only [step, AssertReceivedJSON, readAll, ByteSlice.data]
      split <;> exact ⟨rfl, rfl⟩
  | assertReceivedMethod method =>
    cases req with
    | none => exact ⟨rfl, rfl⟩
    | some r =>
      simp only [step, AssertReceivedMethod]
      split <;> exact ⟨rfl, rfl⟩
  | assertReceivedAs unmarshal =>
    cases req with
    | none => exact ⟨rfl, rfl⟩
    | some r =>
      simp only [step, AssertReceivedAs, readAll, ByteSlice.data]
      split <;> exact ⟨rfl, rfl⟩

theorem run_config (jsonEq : Bytes → Bytes → Bool) (ops : List Op) (s : TestService)
    (hops : ∀ op ∈ ops, op.isSetter = false) :
    (run jsonEq s ops).responseBody = s.responseBody
      ∧ (run jsonEq s ops).responseCode = s.responseCode := by
  induction ops generalizing s with
  | nil => exact ⟨rfl, rfl⟩
  | cons op ops ih =>
    have h1 := step_config jsonEq s op (hops op (List.mem_cons_self op ops))
    have h2 := ih (step jsonEq s op) (fun o ho => hops o (List.mem_cons_of_mem op ho))
    simp only [run, List.foldl_cons] at h2 ⊢
    exact ⟨h2.1.trans h1.1, h2.2.trans h1.2⟩

/-- What the handler answers, as a function of the configured body and code and of the method
of the request. -/
theorem handler_response (s : TestService) (q : Request) (r : Bytes) (c : Int)
    (hb : s.responseBody = r) (hc : s.responseCode = c)
    (hcode : c = 0 ∨ (200 ≤ c ∧ c ≤ 999)) :
    (handler s q).2
      = some ⟨if c = 0 then 200 else c,
          if q.Method ≠ ascii "HEAD" ∧ c ≠ 204 ∧ c ≠ 304 then r else []⟩ := by
  obtain ⟨req, rb, rc⟩ := s
  simp only at hb hc
  subst hb hc
  unfold handler
  simp only [readAll, NewReader, ByteSlice.data]
  by_cases h0 : rc = 0
  · subst h0
    by_cases hr : rb = []
    · subst hr
      simp [ResponseWriter.finish]
    · have hl : rb.length ≠ 0 := by simpa using hr
      by_cases hm : q.Method = ascii "HEAD"
      · simp [ResponseWriter.Write, ResponseWriter.WriteHeader, ResponseWriter.finish,
          bodyAllowedForStatus, hr, hm, hl]
      · simp [ResponseWriter.Write, ResponseWriter.WriteHeader, ResponseWriter.finish,
          bodyAllowedForStatus, hr, hm, hl]
  · have hrange : 200 ≤ rc ∧ rc ≤ 999 := by
      rcases hcode with h | h
      · exact absurd h h0
      · exact h
    have h1 : ¬ (rc < 100 ∨ rc > 999) := by omega
    have h2 : ¬ (100 ≤ rc ∧ rc ≤ 199 ∧ rc ≠ 101) := by omega
    have h3 : ¬ (100 ≤ rc ∧ rc ≤ 199) := by omega
    by_cases hr : rb = []
    · subst hr
      simp [ResponseWriter.WriteHeader, ResponseWriter.finish, h0, h1, h2]
    · have hl : rb.length ≠ 0 := by simpa using hr
      by_cases h204 : rc = 204
      · subst h204
        simp [ResponseWriter.Write, ResponseWriter.WriteHeader, ResponseWriter.finish,
          bodyAllowedForStatus, hr, hl]
      · by_cases h304 : rc = 304
        · subst h304
          simp [ResponseWriter.Write, ResponseWriter.WriteHeader, ResponseWriter.finish,
            bodyAllowedForStatus, hr, hl]
        · by_cases hm : q.Method = ascii "HEAD"
          · simp [ResponseWriter.Write, ResponseWriter.WriteHeader, ResponseWriter.finish,
              bodyAllowedForStatus, h0, h1, h2, h3, hr, hm, h204, h304, hl]
          · simp [ResponseWriter.Write, ResponseWriter.WriteHeader, ResponseWriter.finish,
              bodyAllowedForStatus, h0, h1, h2, h3, hr, hm, h204, h304, hl]

/-- C1, refuted as stated: with the body `pong` and the code 201 configured, a HEAD request
is answered with status 201 and an empty body, not with `pong`. -/
theorem configured_response_counterexample :
    ¬ ∀ (s : TestService) (r : Bytes) (c : Int) (q : Request),
        (handler (SetResponseCode (SetResponseBody s (Value.bytes r)) c) q).2
          = some ⟨if c = 0 then 200 else c, r⟩ := by
  intro h
  have h1 := h NewTestService (ascii "pong") 201 ⟨ascii "HEAD", ⟨ascii "/ping", []⟩, [], []⟩
  revert h1
  decide

/-- C1, amended: for every response body `r` and every status code `c`, after
`SetResponseBody r` and `SetResponseCode c` serving a request before a setter is called again
(after any served requests and assertions) leaves the configured body and code unchanged; and
when `c` is 0 or lies in 200..999, every such request, whatever its method, path, headers or
body, receives exactly `c` as its status, or 200 when `c` is 0, and receives exactly `r` as its
body when its method is not HEAD and `c` is neither 204 nor 304, and an empty body
otherwise. -/
theorem configured_response (jsonEq : Bytes → Bytes → Bool) (s : TestService) (r : Bytes)
    (c : Int) (ops : List Op) (q : Request)
    (hops : ∀ op ∈ ops, op.isSetter = false) :
    (handler (run jsonEq (SetResponseCode (SetResponseBody s (Value.bytes r)) c) ops)
        q).1.responseBody = r
      ∧ (handler (run jsonEq (SetResponseCode (SetResponseBody s (Value.bytes r)) c) ops)
          q).1.responseCode = c
      ∧ (c = 0 ∨ (200 ≤ c ∧ c ≤ 999) →
          (handler (run jsonEq (SetResponseCode (SetResponseBody s (Value.bytes r)) c) ops) q).2
            = some ⟨if c = 0 then 200 else c,
                if q.Method ≠ ascii "HEAD" ∧ c ≠ 204 ∧ c ≠ 304 then r else []⟩) := by
  have hcfg := run_config jsonEq ops (SetResponseCode (SetResponseBody s (Value.bytes r)) c) hops
  have hb : (run jsonEq (SetResponseCode (SetResponseBody s (Value.bytes r)) c) ops).responseBody
      = r := hcfg.1
  have hc : (run jsonEq (SetResponseCode (SetResponseBody s (Value.bytes r)) c) ops).responseCode
      = c := hcfg.2
  refine ⟨?_, ?_, fun hcode => handler_response _ q r c hb hc hcode⟩
  · rw [handler_responseBody, hb]
  · rw [handler_responseCode, hc]

/-- Witness for C1: `pong` and 201 are configured, a POST is served and two assertions are
made, then a HEAD request for `/ping` is served: it is answered 201 with an empty body, and
the configuration stays. -/
theorem configured_response_witness :
    (∀ op ∈ [Op.serve postRequest, Op.assertCalled,
          Op.assertReceivedBody (ByteSlice.bytes (ascii "abc"))], op.isSetter = false)
      ∧ ((201 : Int) = 0 ∨ (200 ≤ (201 : Int) ∧ (201 : Int) ≤ 999))
      ∧ (handler (run (fun a b => decide (a = b))
          (SetResponseCode (SetResponseBody NewTestService (Value.bytes (ascii "pong"))) 201)
          [Op.serve postRequest, Op.assertCalled,
            Op.assertReceivedBody (ByteSlice.bytes (ascii "abc"))])
          headRequest).1.responseBody = ascii "pong"
      ∧ (handler (run (fun a b => decide (a = b))
          (SetResponseCode (SetResponseBody NewTestService (Value.bytes (ascii "pong"))) 201)
          [Op.serve postRequest, Op.assertCalled,
            Op.assertReceivedBody (ByteSlice.bytes (ascii "abc"))])
          headRequest).1.responseCode = 201
      ∧ (handler (run (fun a b => decide (a = b))
          (SetResponseCode (SetResponseBody NewTestService (Value.bytes (ascii "pong"))) 201)
          [Op.serve postRequest, Op.assertCalled,
            Op.assertReceivedBody (ByteSlice.bytes (ascii "abc"))])
          headRequest).2 = some ⟨201, []⟩ :=
  have h := configured_response (fun a b => decide (a = b)) NewTestService (ascii "pong") 201
    [Op.serve postRequest, Op.assertCalled,
      Op.assertReceivedBody (ByteSlice.bytes (ascii "abc"))] headRequest (by decide)
  ⟨by decide, by decide, h.1, h.2.1, h.2.2 (by decide)⟩

theorem sextet_roundtrip :
    ∀ v : Fin 64, decodeSextet (encodeSextet v.val) = some v.val
      ∧ encodeSextet v.val ≠ stdPadding ∧ encodeSextet v.val ≠ 13 ∧ encodeSextet v.val ≠ 10 := by
  decide

theorem decodeSextet_encodeSextet (v : Nat) (h : v < 64) :
    decodeSextet (encodeSextet v) = some v := (sextet_roundtrip ⟨v, h⟩).1

theorem encodeSextet_ne_padding (v : Nat) (h : v < 64) : encodeSextet v ≠ stdPadding :=
  (sextet_roundtrip ⟨v, h⟩).2.1

theorem encodeSextet_kept (v : Nat) (h : v < 64) : encodeSextet v ≠ 13 ∧ encodeSextet v ≠ 10 :=
  (sextet_roundtrip ⟨v, h⟩).2.2

theorem byte_ofNat_eq (a : Byte) (n : Nat) (h : n = a.val) : (Fin.ofNat n : Byte) = a := by
  apply Fin.ext
  subst h
  simp [Fin.ofNat]

theorem encodeToString_kept (x : Bytes) :
    ∀ ch ∈ EncodeToString x, ch ≠ 13 ∧ ch ≠ 10 := by
  induction x using EncodeToString.induct with
  | case1 a b c rest ih =>
    intro ch hch
    simp only [EncodeToString, List.mem_cons] at hch
    have ha := a.isLt
    have hb := b.isLt
    have hc := c.isLt
    rcases hch with h | h | h | h | h
    · subst h; exact encodeSextet_kept _ (by omega)
    · subst h; exact encodeSextet_kept _ (by omega)
    · subst h; exact encodeSextet_kept _ (by omega)
    · subst h; exact encodeSextet_kept _ (by omega)
    · exact ih ch h
  | case2 a b =>
    intro ch hch
    simp only [EncodeToString, List.mem_cons, List.not_mem_nil, or_false] at hch
    have ha := a.isLt
    have hb := b.isLt
    rcases hch with h | h | h | h
    · subst h; exact encodeSextet_kept _ (by omega)
    · subst h; exact encodeSextet_kept _ (by omega)
    · subst h; exact encodeSextet_kept _ (by omega)
    · subst h; decide
  | case3 a =>
    intro ch hch
    simp only [EncodeToString, List.mem_cons, List.not_mem_nil, or_false] at hch
    have ha := a.isLt
    rcases hch with h | h | h | h
    · subst h; exact encodeSextet_kept _ (by omega)
    · subst h; exact encodeSextet_kept _ (by omega)
    · subst h; decide
    · subst h; decide
  | case4 =>
    intro ch hch
    simp [EncodeToString] at hch

theorem decodeQuanta_encodeToString (x : Bytes) : decodeQuanta (EncodeToString x) = some x := by
  induction x using EncodeToString.induct with
  | case1 a b c rest ih =>
    have ha := a.isLt
    have hb := b.isLt
    have hc := c.isLt
    have h0 : a.val / 4 < 64 := by omega
    have h1 : a.val % 4 * 16 + b.val / 16 < 64 := by omega
    have h2 : b.val % 16 * 4 + c.val / 64 < 64 := by omega
    have h3 : c.val % 64 < 64 := by omega
    simp only [EncodeToString, decodeQuanta, decodeSextet_encodeSextet _ h0,
      decodeSextet_encodeSextet _ h1, decodeSextet_encodeSextet _ h2,
      decodeSextet_encodeSextet _ h3, encodeSextet_ne_padding _ h2,
      encodeSextet_ne_padding _ h3, if_false, ih]
    rw [byte_ofNat_eq a _ (by omega), byte_ofNat_eq b _ (by omega), byte_ofNat_eq c _ (by omega)]
  | case2 a b =>
    have ha := a.isLt
    have hb := b.isLt
    have h0 : a.val / 4 < 64 := by omega
    have h1 : a.val % 4 * 16 + b.val / 16 < 64 := by omega
    have h2 : b.val % 16 * 4 < 64 := by omega
    simp only [EncodeToString, decodeQuanta, decodeSextet_encodeSextet _ h0,
      decodeSextet_encodeSextet _ h1, decodeSextet_encodeSextet _ h2,
      encodeSextet_ne_padding _ h2, if_false, if_true]
    rw [byte_ofNat_eq a _ (by omega), byte_ofNat_eq b _ (by omega)]
  | case3 a =>
    have ha := a.isLt
    have h0 : a.val / 4 < 64 := by omega
    have h1 : a.val % 4 * 16 < 64 := by omega
    simp only [EncodeToString, decodeQuanta, decodeSextet_encodeSextet _ h0,
      decodeSextet_encodeSextet _ h1, if_true, and_self]
    rw [byte_ofNat_eq a _ (by omega)]
  | case4 => rfl

theorem decodeString_encodeToString (x : Bytes) : DecodeString (EncodeToString x) = some x := by
  unfold DecodeString
  rw [List.filter_eq_self.mpr, decodeQuanta_encodeToString]
  intro ch hch
  simpa using encodeToString_kept x ch hch

theorem cutByte_append (sep : Byte) (u p : Bytes) (hu : sep ∉ u) :
    cutByte sep (u ++ sep :: p) = some (u, p) := by
  induction u with
  | nil => simp [cutByte]
  | cons c cs ih =>
    have hc : c ≠ sep := fun h => hu (h ▸ List.mem_cons_self c cs)
    have hcs : sep ∉ cs := fun h => hu (List.mem_cons_of_mem c h)
    simp [cutByte, hc, ih hcs]

theorem header_get_set (h : Values) (key value : Bytes) :
    Header.Get (Header.Set h key value) key = value := by
  simp [Header.Get, Header.Set, Values.assign, Values.index, List.lookup]

theorem parseBasicAuth_basic (cs : Bytes) :
    parseBasicAuth (ascii "Basic " ++ EncodeToString cs)
      = (match cutByte 58 cs with
        | none => ([], [], false)
        | some (username, password) => (username, password, true)) := by
  have hlen : (ascii "Basic ").length = 6 := by decide
  have htake : (ascii "Basic " ++ EncodeToString cs).take 6 = ascii "Basic " := by
    rw [← hlen, List.take_left']
    rfl
  have hdrop : (ascii "Basic " ++ EncodeToString cs).drop 6 = EncodeToString cs := by
    rw [← hlen, List.drop_left']
    rfl
  have hl : ¬ (ascii "Basic " ++ EncodeToString cs).length < 6 := by
    rw [List.length_append, hlen]
    omega
  unfold parseBasicAuth
  rw [htake, hdrop, decodeString_encodeToString]
  simp only [hl, ne_eq, not_true_eq_false, or_self, if_false]

theorem basicAuth_setBasicAuth (q : Request) (u p : Bytes) (hu : (58 : Byte) ∉ u) :
    (q.SetBasicAuth u p).BasicAuth = (u, p, true) := by
  have hne : ascii "Basic " ++ EncodeToString (u ++ 58 :: p) ≠ [] := by
    intro h
    have := congrArg List.length h
    rw [List.length_append] at this
    have hlen : (ascii "Basic ").length = 6 := by decide
    simp [hlen] at this
  unfold Request.BasicAuth Request.SetBasicAuth
  simp only [header_get_set]
  rw [if_neg hne, parseBasicAuth_basic, cutByte_append 58 u p hu]

/-- C8, refuted as stated: a request sent with the user name `a:b` and the password `c` is
seen by the service as user `a` with password `b:c`, so `AssertReceivedBasicAuth "a:b" "c"`
fails on it and `AssertReceivedBasicAuth "a" "b:c"` passes. -/
theorem basicAuth_colon_counterexample :
    (AssertReceivedBasicAuth (handler NewTestService
        (Request.SetBasicAuth ⟨ascii "GET", ⟨ascii "/", []⟩, [], []⟩ (ascii "a:b") (ascii "c"))).1
        (ascii "a:b") (ascii "c")).1 = Outcome.fail
      ∧ (AssertReceivedBasicAuth (handler NewTestService
        (Request.SetBasicAuth ⟨ascii "GET", ⟨ascii "/", []⟩, [], []⟩ (ascii "a:b") (ascii "c"))).1
        (ascii "a") (ascii "b:c")).1 = Outcome.pass := by
  decide

/-- C8, amended: for every user name `u` that contains no colon and every password `p`, after
the handler captures a request sent with HTTP Basic credentials `u`/`p`,
`AssertReceivedBasicAuth u' p'` passes if and only if `u' = u` and `p' = p`; on a captured
request that carries no valid Basic credentials it fails for every `u'` and `p'`. -/
theorem basicAuth_iff (s : TestService) (q q0 : Request) (u p u' p' : Bytes)
    (hu : (58 : Byte) ∉ u) (h0 : q0.BasicAuth.2.2 = false) :
    ((AssertReceivedBasicAuth (handler s (q.SetBasicAuth u p)).1 u' p').1 = Outcome.pass
        ↔ u' = u ∧ p' = p)
      ∧ (AssertReceivedBasicAuth (handler s q0).1 u' p').1 = Outcome.fail := by
  constructor
  · unfold AssertReceivedBasicAuth
    rw [handler_request]
    dsimp only
    rw [basicAuth_setBasicAuth q u p hu]
    by_cases h1 : u' = u <;> by_cases h2 : p' = p <;> simp [h1, h2]
  · unfold AssertReceivedBasicAuth
    rw [handler_request]
    simp [h0]

/-- Witness for C8: the credentials `alice`/`s3cret` on `pingRequest`, checked against the
password `wrong`; `postRequest` carries no credentials. -/
theorem basicAuth_iff_witness :
    (58 : Byte) ∉ ascii "alice"
      ∧ postRequest.BasicAuth.2.2 = false
      ∧ ((AssertReceivedBasicAuth (handler NewTestService
            (pingRequest.SetBasicAuth (ascii "alice") (ascii "s3cret"))).1
            (ascii "alice") (ascii "wrong")).1 = Outcome.pass
          ↔ ascii "alice" = ascii "alice" ∧ ascii "wrong" = ascii "s3cret")
      ∧ (AssertReceivedBasicAuth (handler NewTestService postRequest).1
            (ascii "alice") (ascii "wrong")).1 = Outcome.fail :=
  ⟨by decide, by decide,
    basicAuth_iff NewTestService pingRequest postRequest (ascii "alice") (ascii "s3cret")
      (ascii "alice") (ascii "wrong") (by decide) (by decide)⟩

theorem jentries_map_insert {N M : Type} (h : N → M) (k : Bytes) (v : JValue N) :
    ∀ m : JEntries N,
      JEntries.map h (JEntries.insert k v m) = JEntries.insert k (JValue.map h v) (JEntries.map h m)
  | JEntries.nil => rfl
  | JEntries.cons k' v' m => by
    simp only [JEntries.insert, JEntries.map]
    by_cases h1 : k = k'
    · simp [h1, JEntries.map]
    · by_cases h2 : k < k'
      · simp [h1, h2, JEntries.map]
      · simp [h1, h2, JEntries.map, jentries_map_insert h k v m]

mutual
theorem decodeValue_map {N M : Type} (c : Decimal → Option N) (h : N → M) :
    ∀ x : JValue Decimal,
      decodeValue (fun d => (c d).map h) x = (decodeValue c x).map (JValue.map h)
  | JValue.null => rfl
  | JValue.bool _ => rfl
  | JValue.number d => by
    simp only [decodeValue]
    cases c d <;> rfl
  | JValue.string _ => rfl
  | JValue.array xs => by
    simp only [decodeValue, decodeElements_map c h xs]
    cases decodeElements c xs <;> rfl
  | JValue.object m => by
    have := decodeMembers_map c h m JEntries.nil
    simp only [JEntries.map] at this
    simp only [decodeValue, this]
    cases decodeMembers c m JEntries.nil <;> rfl
theorem decodeElements_map {N M : Type} (c : Decimal → Option N) (h : N → M) :
    ∀ xs : JValues Decimal,
      decodeElements (fun d => (c d).map h) xs = (decodeElements c xs).map (JValues.map h)
  | JValues.nil => rfl
  | JValues.cons x xs => by
    simp only [decodeElements, decodeValue_map c h x, decodeElements_map c h xs]
    cases decodeValue c x <;> cases decodeElements c xs <;> rfl
theorem decodeMembers_map {N M : Type} (c : Decimal → Option N) (h : N → M) :
    ∀ (m : JEntries Decimal) (acc : JEntries N),
      decodeMembers (fun d => (c d).map h) m (JEntries.map h acc)
        = (decodeMembers c m acc).map (JEntries.map h)
  | JEntries.nil, _ => rfl
  | JEntries.cons k v m, acc => by
    simp only [decodeMembers, decodeValue_map c h v]
    cases hv : decodeValue c v with
    | none => rfl
    | some y =>
      simp only [Option.map_some']
      rw [← jentries_map_insert, decodeMembers_map c h m]
end

mutual
theorem decodeValue_congr {N : Type} (c1 c2 : Decimal → Option N) (p : Decimal → Bool)
    (hp : ∀ d, p d = true → c1 d = c2 d) :
    ∀ x : JValue Decimal, x.allNumbers p = true → decodeValue c1 x = decodeValue c2 x
  | JValue.null, _ => rfl
  | JValue.bool _, _ => rfl
  | JValue.number d, hx => by
    simp only [JValue.allNumbers] at hx
    simp only [decodeValue, hp d hx]
  | JValue.string _, _ => rfl
  | JValue.array xs, hx => by
    simp only [JValue.allNumbers] at hx
    simp only [decodeValue, decodeElements_congr c1 c2 p hp xs hx]
  | JValue.object m, hx => by
    simp only [JValue.allNumbers] at hx
    simp only [decodeValue, decodeMembers_congr c1 c2 p hp m hx]
theorem decodeElements_congr {N : Type} (c1 c2 : Decimal → Option N) (p : Decimal → Bool)
    (hp : ∀ d, p d = true → c1 d = c2 d) :
    ∀ xs : JValues Decimal, xs.allNumbers p = true → decodeElements c1 xs = decodeElements c2 xs
  | JValues.nil, _ => rfl
  | JValues.cons x xs, hx => by
    simp only [JValues.allNumbers, Bool.and_eq_true] at hx
    simp only [decodeElements, decodeValue_congr c1 c2 p hp x hx.1,
      decodeElements_congr c1 c2 p hp xs hx.2]
theorem decodeMembers_congr {N : Type} (c1 c2 : Decimal → Option N) (p : Decimal → Bool)
    (hp : ∀ d, p d = true → c1 d = c2 d) :
    ∀ (m : JEntries Decimal), m.allNumbers p = true →
      ∀ acc : JEntries N, decodeMembers c1 m acc = decodeMembers c2 m acc
  | JEntries.nil, _, _ => rfl
  | JEntries.cons k v m, hx, acc => by
    simp only [JEntries.allNumbers, Bool.and_eq_true] at hx
    simp only [decodeMembers, decodeValue_congr c1 c2 p hp v hx.1]
    cases decodeValue c2 v with
    | none => rfl
    | some y => exact decodeMembers_congr c1 c2 p hp m hx.2 _
end

mutual
theorem jvalue_map_map {N M K : Type} (h : N → M) (g : M → K) :
    ∀ x : JValue N, JValue.map g (JValue.map h x) = JValue.map (g ∘ h) x
  | JValue.null => rfl
  | JValue.bool _ => rfl
  | JValue.number _ => rfl
  | JValue.string _ => rfl
  | JValue.array xs => by simp only [JValue.map, jvalues_map_map h g xs]
  | JValue.object m => by simp only [JValue.map, jentries_map_map h g m]
theorem jvalues_map_map {N M K : Type} (h : N → M) (g : M → K) :
    ∀ xs : JValues N, JValues.map g (JValues.map h xs) = JValues.map (g ∘ h) xs
  | JValues.nil => rfl
  | JValues.cons x xs => by
    simp only [JValues.map, jvalue_map_map h g x, jvalues_map_map h g xs]
theorem jentries_map_map {N M K : Type} (h : N → M) (g : M → K) :
    ∀ m : JEntries N, JEntries.map g (JEntries.map h m) = JEntries.map (g ∘ h) m
  | JEntries.nil => rfl
  | JEntries.cons k v m => by
    simp only [JEntries.map, jvalue_map_map h g v, jentries_map_map h g m]
end

mutual
theorem decodeValue_some_isSome :
    ∀ x : JValue Decimal, (decodeValue (fun d => some d) x).isSome = true
  | JValue.null => rfl
  | JValue.bool _ => rfl
  | JValue.number _ => rfl
  | JValue.string _ => rfl
  | JValue.array xs => by
    have := decodeElements_some_isSome xs
    simp only [decodeValue]
    cases h : decodeElements (fun d => some d) xs with
    | none => simp [h] at this
    | some _ => rfl
  | JValue.object m => by
    have := decodeMembers_some_isSome m JEntries.nil
    simp only [decodeValue]
    cases h : decodeMembers (fun d => some d) m JEntries.nil with
    | none => simp [h] at this
    | some _ => rfl
theorem decodeElements_some_isSome :
    ∀ xs : JValues Decimal, (decodeElements (fun d => some d) xs).isSome = true
  | JValues.nil => rfl
  | JValues.cons x xs => by
    have h1 := decodeValue_some_isSome x
    have h2 := decodeElements_some_isSome xs
    simp only [decodeElements]
    cases hx : decodeValue (fun d => some d) x with
    | none => simp [hx] at h1
    | some _ =>
      cases hxs : decodeElements (fun d => some d) xs with
      | none => simp [hxs] at h2
      | some _ => rfl
theorem decodeMembers_some_isSome :
    ∀ (m : JEntries Decimal) (acc : JEntries Decimal),
      (decodeMembers (fun d => some d) m acc).isSome = true
  | JEntries.nil, _ => rfl
  | JEntries.cons k v m, acc => by
    have h1 := decodeValue_some_isSome v
    simp only [decodeMembers]
    cases hv : decodeValue (fun d => some d) v with
    | none => simp [hv] at h1
    | some y => exact decodeMembers_some_isSome m _
end

theorem denote_eq_map (x : JValue Decimal) (hx : x.allNumbers float64Exact = true) :
    denote x = (decodeValue ParseFloat x).map (JValue.map Float64.toDecimal) := by
  unfold denote
  rw [← decodeValue_map]
  apply decodeValue_congr _ _ float64Exact _ x hx
  intro d hd
  simp only [float64Exact, decide_eq_true_eq] at hd
  exact hd.symm

theorem decode_map_back (x : JValue Decimal) (hx : x.allNumbers float64Exact = true) :
    (decodeValue ParseFloat x).map (JValue.map (nearestFloat64 ∘ Float64.toDecimal))
      = decodeValue ParseFloat x := by
  rw [← decodeValue_map]
  apply decodeValue_congr _ _ float64Exact _ x hx
  intro d hd
  simp only [float64Exact, decide_eq_true_eq] at hd
  cases hf : ParseFloat d with
  | none => rfl
  | some f =>
    rw [hf] at hd
    simp only [Option.map_some', Option.some.injEq] at hd
    simp only [Option.map_some', Function.comp, hd, nearestFloat64, hf, Option.getD_some]

theorem decode_eq_iff (x y : JValue Decimal) (hx : x.allNumbers float64Exact = true)
    (hy : y.allNumbers float64Exact = true) :
    (∃ u, decodeValue ParseFloat x = some u ∧ decodeValue ParseFloat y = some u)
      ↔ denote x = denote y := by
  have hxs := decodeValue_some_isSome x
  have hys := decodeValue_some_isSome y
  have ax := denote_eq_map x hx
  have ay := denote_eq_map y hy
  have bx := decode_map_back x hx
  have hby := decode_map_back y hy
  unfold denote at ax ay
  unfold denote
  cases hu : decodeValue ParseFloat x with
  | none => rw [hu] at ax; simp [ax] at hxs
  | some u =>
    cases hv : decodeValue ParseFloat y with
    | none => rw [hv] at ay; simp [ay] at hys
    | some v =>
      rw [hu] at ax bx
      rw [hv] at ay hby
      simp only [Option.map_some', Option.some.injEq] at ax ay bx hby
      rw [ax, ay]
      constructor
      · rintro ⟨w, h1, h2⟩
        simp only [Option.some.injEq] at h1 h2
        rw [h1, h2]
      · intro h
        simp only [Option.some.injEq] at h
        have := congrArg (JValue.map nearestFloat64) h
        rw [jvalue_map_map, jvalue_map_map, bx, hby] at this
        exact ⟨u, rfl, by rw [this]⟩


theorem jentries_insert_comm {N : Type} (k1 k2 : Bytes) (v1 v2 : JValue N) (hk : k1 ≠ k2) :
    ∀ m : JEntries N,
      JEntries.insert k2 v2 (JEntries.insert k1 v1 m)
        = JEntries.insert k1 v1 (JEntries.insert k2 v2 m)
  | JEntries.nil => by
    have hk' : k2 ≠ k1 := fun h => hk h.symm
    rcases lt_or_gt_of_ne hk with h | h
    · have h' : ¬ k2 < k1 := lt_asymm h
      simp [JEntries.insert, hk, hk', h, h']
    · have h' : ¬ k1 < k2 := lt_asymm h
      simp [JEntries.insert, hk, hk', h, h']
  | JEntries.cons k v m => by
    have hk' : k2 ≠ k1 := fun h => hk h.symm
    have ih := jentries_insert_comm k1 k2 v1 v2 hk m
    by_cases e1 : k1 = k
    · subst e1
      rcases lt_or_gt_of_ne hk with h | h
      · have h' : ¬ k2 < k1 := lt_asymm h
        simp [JEntries.insert, hk, hk', h, h']
      · have h' : ¬ k1 < k2 := lt_asymm h
        simp [JEntries.insert, hk, hk', h, h']
    · by_cases e2 : k2 = k
      · subst e2
        rcases lt_or_gt_of_ne hk with h | h
        · have h' : ¬ k2 < k1 := lt_asymm h
          simp [JEntries.insert, hk, hk', h, h']
        · have h' : ¬ k1 < k2 := lt_asymm h
          simp [JEntries.insert, hk, hk', h, h']
      · by_cases l1 : k1 < k <;> by_cases l2 : k2 < k
        · rcases lt_or_gt_of_ne hk with h | h
          · have h' : ¬ k2 < k1 := lt_asymm h
            simp [JEntries.insert, hk, hk', e1, e2, l1, l2, h, h']
          · have h' : ¬ k1 < k2 := lt_asymm h
            simp [JEntries.insert, hk, hk', e1, e2, l1, l2, h, h']
        · have hkk : k < k2 := lt_of_le_of_ne (not_lt.mp l2) (fun h => e2 h.symm)
          have h12 : k1 < k2 := lt_trans l1 hkk
          have h' : ¬ k2 < k1 := lt_asymm h12
          simp [JEntries.insert, hk, hk', e1, e2, l1, l2, h12, h']
        · have hkk : k < k1 := lt_of_le_of_ne (not_lt.mp l1) (fun h => e1 h.symm)
          have h21 : k2 < k1 := lt_trans l2 hkk
          have h' : ¬ k1 < k2 := lt_asymm h21
          simp [JEntries.insert, hk, hk', e1, e2, l1, l2, h21, h']
        · simp [JEntries.insert, e1, e2, l1, l2, ih]

theorem decodeMembers_cons_congr {N : Type} (c : Decimal → Option N) (k : Bytes)
    (v v' : JValue Decimal) (m m' : JEntries Decimal)
    (hv : decodeValue c v = decodeValue c v')
    (hm : ∀ acc, decodeMembers c m acc = decodeMembers c m' acc) (acc : JEntries N) :
    decodeMembers c (JEntries.cons k v m) acc = decodeMembers c (JEntries.cons k v' m') acc := by
  simp only [decodeMembers, hv]
  cases decodeValue c v' with
  | none => rfl
  | some y => exact hm _

theorem decodeMembers_swap {N : Type} (c : Decimal → Option N) (k1 k2 : Bytes)
    (v1 v2 : JValue Decimal) (m : JEntries Decimal) (hk : k1 ≠ k2) (acc : JEntries N) :
    decodeMembers c (JEntries.cons k1 v1 (JEntries.cons k2 v2 m)) acc
      = decodeMembers c (JEntries.cons k2 v2 (JEntries.cons k1 v1 m)) acc := by
  simp only [decodeMembers]
  cases decodeValue c v1 with
  | none => cases decodeValue c v2 <;> rfl
  | some y1 =>
    cases decodeValue c v2 with
    | none => rfl
    | some y2 =>
      simp only []
      rw [jentries_insert_comm _ _ y1 y2 hk acc]

theorem decodeValue_reordered {N : Type} (c : Decimal → Option N) (x y : JValue Decimal)
    (h : JValue.Reordered x y) : decodeValue c x = decodeValue c y := by
  refine JValue.Reordered.rec
    (motive_1 := fun x y _ => decodeValue c x = decodeValue c y)
    (motive_2 := fun xs ys _ => decodeElements c xs = decodeElements c ys)
    (motive_3 := fun m m' _ => ∀ acc : JEntries N, decodeMembers c m acc = decodeMembers c m' acc)
    ?_ ?_ ?_ ?_ ?_ ?_ ?_ ?_ ?_ h
  · intro x
    rfl
  · intro xs ys _ ih
    simp only [decodeValue, ih]
  · intro m m' _ ih
    simp only [decodeValue, ih JEntries.nil]
  · rfl
  · intro x y xs ys _ _ ih1 ih2
    simp only [decodeElements, ih1, ih2]
  · intro acc
    rfl
  · intro k v v' m m' _ _ ih1 ih2 acc
    exact decodeMembers_cons_congr c k v v' m m' ih1 ih2 acc
  · intro k1 k2 v1 v2 m hk acc
    exact decodeMembers_swap c k1 k2 v1 v2 m hk acc
  · intro a b d _ _ ih1 ih2 acc
    exact (ih1 acc).trans (ih2 acc)


theorem parseJSON_of_tokens (s t : Bytes) (h : tokens s = tokens t) :
    parseJSON s = parseJSON t := by
  unfold parseJSON
  rw [h]

theorem sameJSONValue_of_parse_eq (s t : Bytes) (hs : validJSON s = true)
    (h : parseJSON s = parseJSON t) : sameJSONValue s t = true := by
  unfold validJSON at hs
  unfold sameJSONValue
  rw [← h]
  cases hx : parseJSON s with
  | none => simp [hx] at hs
  | some x => simp

theorem sameJSONValue_of_keyReordered (s t : Bytes) (h : keyReordered s t) :
    sameJSONValue s t = true := by
  obtain ⟨x, y, hx, hy, hr⟩ := h
  unfold sameJSONValue
  rw [hx, hy]
  simp only [denote, decide_eq_true_eq]
  exact decodeValue_reordered _ x y hr

theorem jsonEq_iff_sameJSONValue (e b : Bytes) (hve : validJSON e = true)
    (hvb : validJSON b = true) (he : numbersExact e = true) (hb : numbersExact b = true) :
    JSONEq e b = true ↔ sameJSONValue e b = true := by
  unfold validJSON at hve hvb
  unfold numbersExact at he hb
  unfold JSONEq Unmarshal sameJSONValue
  cases hx : parseJSON e with
  | none => simp [hx] at hve
  | some x =>
    cases hy : parseJSON b with
    | none => simp [hy] at hvb
    | some y =>
      rw [hx] at he
      rw [hy] at hb
      simp only at he hb
      have key := decode_eq_iff x y he hb
      simp only [decide_eq_true_eq]
      rw [← key]
      cases hu : decodeValue ParseFloat x with
      | none => simp
      | some u =>
        cases hv : decodeValue ParseFloat y with
        | none => simp
        | some v =>
          simp only [DeepEqual, decide_eq_true_eq, Option.some.injEq]
          constructor
          · intro h
            exact ⟨u, rfl, h.symm⟩
          · rintro ⟨w, h1, h2⟩
            rw [h1, h2]

/-- C9, refuted as stated: the JSON numbers 9007199254740992 and 9007199254740993 are two
valid JSON texts that stand for different values, and `AssertReceivedJSON "9007199254740992"`
passes on a captured request whose body is `9007199254740993`: both are read as the same
`float64`. -/
theorem assertReceivedJSON_counterexample :
    validJSON (ascii "9007199254740992") = true
      ∧ validJSON bigNumberRequest.Body = true
      ∧ sameJSONValue (ascii "9007199254740992") bigNumberRequest.Body = false
      ∧ (AssertReceivedJSON JSONEq (handler NewTestService bigNumberRequest).1
          (ascii "9007199254740992")).1 = Outcome.pass := by
  refine ⟨by rfl, by rfl, by rfl, by rfl⟩

/-- C9, amended: for every captured request whose body is valid JSON and every valid JSON
string `e`, such that every number in the body and in `e` is exactly representable as a
`float64`, `AssertReceivedJSON e` called as the first assertion on that request passes if and
only if the body and `e` stand for the same JSON value; it passes when `e` is the body itself,
when the two have the same tokens and so differ only in white space, and when they differ only
in the order of the members of their objects (members with different keys exchanged), and it
fails when they stand for different values. -/
theorem assertReceivedJSON_iff (s : TestService) (q : Request) (e : Bytes)
    (hve : validJSON e = true) (hvb : validJSON q.Body = true)
    (hxe : numbersExact e = true) (hxb : numbersExact q.Body = true) :
    ((AssertReceivedJSON JSONEq (handler s q).1 e).1 = Outcome.pass
        ↔ sameJSONValue e q.Body = true)
      ∧ ((AssertReceivedJSON JSONEq (handler s q).1 e).1 = Outcome.fail
        ↔ sameJSONValue e q.Body = false)
      ∧ (e = q.Body → (AssertReceivedJSON JSONEq (handler s q).1 e).1 = Outcome.pass)
      ∧ (tokens e = tokens q.Body
          → (AssertReceivedJSON JSONEq (handler s q).1 e).1 = Outcome.pass)
      ∧ (keyReordered e q.Body
          → (AssertReceivedJSON JSONEq (handler s q).1 e).1 = Outcome.pass) := by
  have hreq := handler_request s q
  have hiff := jsonEq_iff_sameJSONValue e q.Body hve hvb hxe hxb
  have hpass : (AssertReceivedJSON JSONEq (handler s q).1 e).1 = Outcome.pass
      ↔ sameJSONValue e q.Body = true := by
    rw [assertReceivedJSON_of_request JSONEq _ q e hreq, ← hiff]
    by_cases h : JSONEq e q.Body = true <;> simp [h]
  have hfail : (AssertReceivedJSON JSONEq (handler s q).1 e).1 = Outcome.fail
      ↔ sameJSONValue e q.Body = false := by
    rw [assertReceivedJSON_of_request JSONEq _ q e hreq]
    by_cases h : JSONEq e q.Body = true
    · have h' := hiff.mp h
      simp [h, h']
    · have h' : ¬ sameJSONValue e q.Body = true := fun hs => h (hiff.mpr hs)
      simp [h, h']
  refine ⟨hpass, hfail, ?_, ?_, ?_⟩
  · intro h
    exact hpass.mpr (sameJSONValue_of_parse_eq e q.Body hve (by rw [h]))
  · intro h
    exact hpass.mpr (sameJSONValue_of_parse_eq e q.Body hve (parseJSON_of_tokens e q.Body h))
  · intro h
    exact hpass.mpr (sameJSONValue_of_keyReordered e q.Body h)

/-- Witness for C9: the body `jsonBody` and the expected text `jsonExpected`, which differ in
white space, in the order of the two members and in the spelling of the numbers, stand for
the same value, and the assertion passes. -/
theorem assertReceivedJSON_iff_witness :
    validJSON jsonExpected = true
      ∧ validJSON jsonRequest.Body = true
      ∧ numbersExact jsonExpected = true
      ∧ numbersExact jsonRequest.Body = true
      ∧ sameJSONValue jsonExpected jsonRequest.Body = true
      ∧ (AssertReceivedJSON JSONEq (handler NewTestService jsonRequest).1 jsonExpected).1
          = Outcome.pass :=
  have h := assertReceivedJSON_iff NewTestService jsonRequest jsonExpected
    (by rfl) (by rfl) (by rfl) (by rfl)
  ⟨by rfl, by rfl, by rfl, by rfl, by rfl, h.1.mpr (by rfl)⟩

end Testaservice
